import Mathlib

/-! Actuator firmware: servo frame codec, angle mapping and device registry.

A shallow embedding of `esp32_actuators/src`:

* `drivers/hiwonder_servo.cpp`  : `HiWonderServo` (frame encoder, checksum, angle mapping,
  command sub-grammar);
* `managers/device_manager.cpp` : `DeviceManager` (fixed-capacity registry, dispatch by id,
  stop-all, status report);
* `communication/command_parser.cpp` : `CommandParser` (line assembler, dispatch grammar).

Conventions of the embedding.

* `uint8_t` and `uint16_t` values are natural numbers; every place where the source lets a
  value wrap carries an explicit `% 256` or `% 65536`.
* A C array is a list of cells; reading or writing outside the array, reading a cell that
  was never written, dereferencing a null pointer and converting an out-of-range `float`
  to an integer are undefined in the source and are `none` in the embedding.
* A value of type `float` is modelled by the rational number it denotes and the `float`
  operations by the exact rational operations; a division by zero, whose `float` result
  is an infinity or a NaN, is `none`.
* The serial port of the servo bus is the log of the `write` calls made on it, each call
  being the list of bytes it was given. All servos are constructed on this one port, as
  `main.cpp` constructs its servo on `Serial1`.
* A pointer to an actuator is a value of a type `α`; the objects pointed to are held by a
  `World`, which the operations that call an actuator take and return.
-/

namespace Submarine

/-! ## Protocol constants (`hiwonder_servo.cpp`, lines 7-15) -/

def FRAME_HEADER : Nat := 0x55
def CMD_MOVE_TIME_WRITE : Nat := 0x01
def CMD_MOVE_STOP : Nat := 0x0C
def CMD_POS_READ : Nat := 0x1C
def CMD_VIN_READ : Nat := 0x1B
def CMD_MOTOR_MODE_WRITE : Nat := 0x1D
def CMD_LOAD_OR_UNLOAD_WRITE : Nat := 0x1F

/-! ## The serial port and the frame buffer -/

/-- The bus transport `serial_`: the list of `write(buf, n)` calls, oldest first, each call
being the `n` bytes written. -/
abbrev Serial := List (List Nat)

/-- The local array `uint8_t buf[16]` of `sendFrame`: sixteen cells, `none` while a cell
has not been written. -/
abbrev Buf := List (Option Nat)

/-- The array `buf[16]` as declared: sixteen cells without a value. -/
def Buf.fresh : Buf := List.replicate 16 none

/-- The assignment `buf[i] = v`; outside the array it is undefined. -/
def Buf.write (buf : Buf) (i v : Nat) : Option Buf :=
  if i < buf.length then some (buf.set i v) else none

/-- The read `buf[i]`; outside the array or of a cell never written it is undefined. -/
def Buf.read (buf : Buf) (i : Nat) : Option Nat :=
  match buf[i]? with
  | some (some v) => some v
  | _ => none

/-- The loop of `checksum`, `for (uint8_t i = 2; i < buf[3] + 2; i++) sum += buf[i];`,
with `n` the number of iterations still to run (`buf[3] + 2 - i`), `i` the index and `sum`
the `uint16_t` accumulator. The counter `i` cannot wrap before a read leaves the sixteen
cells of the array. -/
def checksumLoop (buf : Buf) : Nat → Nat → Nat → Option Nat
  | 0, _, sum => some sum
  | n + 1, i, sum =>
    match buf.read i with
    | some b => checksumLoop buf n (i + 1) ((sum + b) % 65536)
    | none => none

/-- Source function `HiWonderServo::checksum(buf, length)`: the sum of the cells from
index 2 to index `buf[3] + 1`, complemented and cut to eight bits
(`static_cast<uint8_t>(~sum)`). The parameter `length` is not used by the source. -/
def checksum (buf : Buf) : Option Nat :=
  match buf.read 3 with
  | some len =>
    match checksumLoop buf len 2 0 with
    | some sum => some ((65535 - sum) % 256)
    | none => none
  | none => none

/-- The loop `for (uint8_t i = 0; i < payload_len; i++) buf[5 + i] = payload[i];` of
`sendFrame`, run from index `i` on the payload bytes still to copy. -/
def copyPayload : Buf → Nat → List Nat → Option Buf
  | buf, _, [] => some buf
  | buf, i, p :: ps =>
    match buf.write (5 + i) p with
    | some buf1 => copyPayload buf1 (i + 1) ps
    | none => none

/-- The read of `buf[0 .. n-1]` made by `serial_.write(buf, n)`. -/
def Buf.readPrefix (buf : Buf) : Nat → Option (List Nat)
  | 0 => some []
  | n + 1 =>
    match Buf.readPrefix buf n, buf.read n with
    | some bs, some b => some (bs ++ [b])
    | _, _ => none

/-- Source function `HiWonderServo::sendFrame(id, command, payload, payload_len)`, the
payload being the list of its `payload_len` bytes. The result is the serial log after the
call, `none` when the source runs into undefined behaviour. -/
def sendFrame (serial : Serial) (id command : Nat) (payload : List Nat) : Option Serial :=
  let payload_len := payload.length
  let len := (payload_len + 3) % 256
  match Buf.fresh.write 0 FRAME_HEADER with
  | none => none
  | some b0 =>
  match b0.write 1 FRAME_HEADER with
  | none => none
  | some b1 =>
  match b1.write 2 id with
  | none => none
  | some b2 =>
  match b2.write 3 len with
  | none => none
  | some b3 =>
  match b3.write 4 command with
  | none => none
  | some b4 =>
  match copyPayload b4 0 payload with
  | none => none
  | some b5 =>
  match checksum b5 with
  | none => none
  | some c =>
  match b5.write (5 + payload_len) c with
  | none => none
  | some b6 =>
  match b6.readPrefix (6 + payload_len) with
  | none => none
  | some bytes => some (serial ++ [bytes])


/-! ## The actuator interface (`actuator_base.h`) -/

/-- The enumeration `Actuator::Type`. -/
inductive ActuatorType where
  | SERVO
  | DC_MOTOR
  | PUMP
  deriving DecidableEq, Repr

/-- The enumeration `Actuator::State`. -/
inductive State where
  | IDLE
  | MOVING
  | ERROR
  deriving DecidableEq, Repr

/-- The text held by `status_`, given by the format that `snprintf` was called with and
its arguments: `"Servo ID %d: OK"`, `"Servo ID %d: Stopped"`,
`"Servo ID %d: Moving to %.1f°"`, `"Servo ID %d: Loaded"`, `"Servo ID %d: Unloaded"`. -/
inductive Status where
  | ok (id : Nat)
  | stopped (id : Nat)
  | movingTo (id : Nat) (angle : ℚ)
  | loaded (id : Nat)
  | unloaded (id : Nat)
  deriving DecidableEq

/-! ## The servo (`hiwonder_servo.h`, `hiwonder_servo.cpp`) -/

/-- The data members of `HiWonderServo`, the reference `serial_` apart: the serial log is
passed to and returned by every operation that writes. -/
structure HiWonderServo where
  id_ : Nat
  state_ : State
  status_ : Status
  min_angle_ : ℚ
  max_angle_ : ℚ
  min_pos_ : Nat
  max_pos_ : Nat
  center_pos_ : Nat
  deriving DecidableEq

/-- The constructor `HiWonderServo(serial, id)` with the default member initialisers of
the header. -/
def HiWonderServo.new (id : Nat) : HiWonderServo :=
  { id_ := id, state_ := State.IDLE, status_ := Status.ok id,
    min_angle_ := -120, max_angle_ := 120,
    min_pos_ := 0, max_pos_ := 1000, center_pos_ := 500 }

/-- Source function `HiWonderServo::getType`. -/
def HiWonderServo.getType (_s : HiWonderServo) : ActuatorType := ActuatorType.SERVO

/-- Source function `HiWonderServo::getId`. -/
def HiWonderServo.getId (s : HiWonderServo) : Nat := s.id_

/-- Source function `HiWonderServo::getState`. -/
def HiWonderServo.getState (s : HiWonderServo) : State := s.state_

/-- Source function `HiWonderServo::getStatus`. -/
def HiWonderServo.getStatus (s : HiWonderServo) : Status := s.status_

/-- The Arduino macro `constrain(amt, low, high)`, which is
`((amt) < (low) ? (low) : ((amt) > (high) ? (high) : (amt)))`. -/
def constrain {α : Type} [LT α] [DecidableRel (fun a b : α => a < b)] (amt low high : α) : α :=
  if amt < low then low else if high < amt then high else amt

/-- The conversion `static_cast<uint16_t>(x)` of a `float`: the fraction is discarded
(`⌊x⌋₊` is the integer part of `x` for `0 ≤ x` and 0 for `-1 < x < 0`), and the conversion
is undefined when the result does not fit the type. -/
def toUInt16 (x : ℚ) : Option Nat :=
  if x ≤ -1 then none
  else if 65536 ≤ x then none
  else some ⌊x⌋₊

/-- Source function `HiWonderServo::angleToPosition(angle_deg)`. The difference
`max_pos_ - min_pos_` is taken in `int`, as the integer promotions of the source make
it. -/
def HiWonderServo.angleToPosition (s : HiWonderServo) (angle_deg : ℚ) : Option Nat :=
  let angle_deg := constrain angle_deg s.min_angle_ s.max_angle_
  if s.max_angle_ - s.min_angle_ = 0 then none
  else
    let ratio := (angle_deg - s.min_angle_) / (s.max_angle_ - s.min_angle_)
    toUInt16 ((s.min_pos_ : ℚ) + ratio * (((s.max_pos_ : Int) - (s.min_pos_ : Int) : Int) : ℚ))

/-- Source function `HiWonderServo::move(position, time_ms)`. -/
def HiWonderServo.move (s : HiWonderServo) (serial : Serial) (position time_ms : Nat) :
    Option Serial :=
  let position := constrain position s.min_pos_ s.max_pos_
  let payload := [position % 256, (position / 256) % 256, time_ms % 256, (time_ms / 256) % 256]
  sendFrame serial s.id_ CMD_MOVE_TIME_WRITE payload

/-- Source function `HiWonderServo::moveAngle(angle_deg, time_ms)`. -/
def HiWonderServo.moveAngle (s : HiWonderServo) (serial : Serial) (angle_deg : ℚ)
    (time_ms : Nat) : Option Serial :=
  match s.angleToPosition angle_deg with
  | some position => s.move serial position time_ms
  | none => none

/-- Source function `HiWonderServo::stop()`. -/
def HiWonderServo.stop (s : HiWonderServo) (serial : Serial) :
    Option (HiWonderServo × Serial) :=
  match sendFrame serial s.id_ CMD_MOVE_STOP [] with
  | some serial1 =>
    some ({ s with state_ := State.IDLE, status_ := Status.stopped s.id_ }, serial1)
  | none => none

/-- Source function `HiWonderServo::load()`. -/
def HiWonderServo.load (s : HiWonderServo) (serial : Serial) : Option Serial :=
  sendFrame serial s.id_ CMD_LOAD_OR_UNLOAD_WRITE [1]

/-- Source function `HiWonderServo::unload()`: the six bytes of the local array `packet`
are written as they are, without a call of `sendFrame`. -/
def HiWonderServo.unload (s : HiWonderServo) (serial : Serial) : Option Serial :=
  let packet := [0x55, 0x55, s.id_, 0x04, 0x14, 0x00]
  some (serial ++ [packet])

/-- Source function `HiWonderServo::setAngleLimits(min_angle, max_angle)`. -/
def HiWonderServo.setAngleLimits (s : HiWonderServo) (min_angle max_angle : ℚ) :
    HiWonderServo :=
  { s with min_angle_ := min_angle, max_angle_ := max_angle }

/-- Source function `HiWonderServo::setPositionLimits(min_pos, max_pos)`. -/
def HiWonderServo.setPositionLimits (s : HiWonderServo) (min_pos max_pos : Nat) :
    HiWonderServo :=
  { s with min_pos_ := min_pos, max_pos_ := max_pos }

/-- Source function `HiWonderServo::setCenter(center_pos)`. -/
def HiWonderServo.setCenter (s : HiWonderServo) (center_pos : Nat) : HiWonderServo :=
  { s with center_pos_ := center_pos }

/-! ### The command sub-grammar: `sscanf(command, "angle,%f,time,%hu", ...)`

The C library is not part of the repository; the scanner below follows the C standard for
the two conversions of this format, with the 32-bit `unsigned long` of the target. -/

/-- The C function `isspace` in the "C" locale. -/
def isSpace (c : Char) : Bool :=
  c.toNat = 32 || (9 ≤ c.toNat && c.toNat ≤ 13)

/-- Input white space is skipped before a `%f` or `%hu` conversion. -/
def skipSpace : List Char → List Char
  | [] => []
  | c :: cs => if isSpace c then skipSpace cs else c :: cs

/-- The decimal digits. -/
def isDigit (c : Char) : Bool := 48 ≤ c.toNat && c.toNat ≤ 57

/-- The value of a decimal digit. -/
def digitVal (c : Char) : Nat := c.toNat - 48

/-- The longest run of decimal digits at the head of the input: the value accumulated from
`acc`, the number of digits read added to `n`, and the input left. -/
def scanDigits : List Char → Nat → Nat → Nat × Nat × List Char
  | [], acc, n => (acc, n, [])
  | c :: cs, acc, n =>
    if isDigit c then scanDigits cs (10 * acc + digitVal c) (n + 1) else (acc, n, c :: cs)

/-- An optional sign: whether it is a minus, and the input left. -/
def scanSign : List Char → Bool × List Char
  | '-' :: cs => (true, cs)
  | '+' :: cs => (false, cs)
  | cs => (false, cs)

/-- A directive of ordinary characters of the format: each must be the next input
character. -/
def matchLiteral : List Char → List Char → Option (List Char)
  | [], cs => some cs
  | _ :: _, [] => none
  | l :: ls, c :: cs => if l = c then matchLiteral ls cs else none

/-- The outcome of one conversion. -/
inductive Conv (α : Type) where
  /-- The conversion read a value; the input left follows. -/
  | matched (value : α) (rest : List Char)
  /-- The input does not start with a subject sequence of the conversion. -/
  | failed
  /-- The input starts one of the forms that have no rational value or that C libraries
  treat differently (`inf`, `nan`, hexadecimal): they are left out of the embedding. -/
  | unmodelled

/-- The exponent part of a decimal floating constant, applied to the mantissa `m`: `e` or
`E`, an optional sign and at least one digit. Without a digit there is no exponent part
and the input is left where the mantissa ended. -/
def scanExponent (m : ℚ) (cs : List Char) : ℚ × List Char :=
  match cs with
  | c :: cs1 =>
    if c = 'e' ∨ c = 'E' then
      match scanSign cs1 with
      | (neg, cs2) =>
        match scanDigits cs2 0 0 with
        | (e, n, cs3) =>
          if n = 0 then (m, cs)
          else if neg then (m / (10 : ℚ) ^ e, cs3) else (m * (10 : ℚ) ^ e, cs3)
    else (m, cs)
  | [] => (m, cs)

/-- Whether the input, after the sign, starts one of the forms left out of the embedding:
`inf`, `nan` (in either case) or a hexadecimal constant. -/
def unmodelledStart : List Char → Bool
  | [] => false
  | c :: cs =>
    c = 'i' || c = 'I' || c = 'n' || c = 'N' ||
      (c = '0' && (match cs with
                   | d :: _ => d = 'x' || d = 'X'
                   | [] => false))

/-- The digits after the point, when the input left by the integer digits starts with a
point: the mantissa accumulated from `ip`, the number of digits after the point, and the
input left. -/
def scanFraction (ip : Nat) : List Char → Nat × Nat × List Char
  | '.' :: cs => scanDigits cs ip 0
  | cs => (ip, 0, cs)

/-- The conversion `%f`: white space, an optional sign, decimal digits with an optional
point (one digit at least), an optional exponent part. -/
def scanFloat (input : List Char) : Conv ℚ :=
  match scanSign (skipSpace input) with
  | (neg, cs) =>
    if unmodelledStart cs then Conv.unmodelled
    else
      match scanDigits cs 0 0 with
      | (ip, n1, cs1) =>
        match scanFraction ip cs1 with
        | (m, n2, cs3) =>
          if n1 + n2 = 0 then Conv.failed
          else
            match scanExponent ((m : ℚ) / (10 : ℚ) ^ n2) cs3 with
            | (v, cs4) => Conv.matched (if neg then -v else v) cs4

/-- The conversion `%hu`: white space, an optional sign and decimal digits, converted as
`strtoul` does (a value that does not fit `unsigned long` becomes `ULONG_MAX`, a minus
negates modulo `2^32`) and stored in an `unsigned short`. -/
def scanUShort (input : List Char) : Conv Nat :=
  match scanSign (skipSpace input) with
  | (neg, cs) =>
    match scanDigits cs 0 0 with
    | (v, n, cs1) =>
      if n = 0 then Conv.failed
      else if 4294967296 ≤ v then Conv.matched (4294967295 % 65536) cs1
      else if neg then Conv.matched (((4294967296 - v) % 4294967296) % 65536) cs1
      else Conv.matched (v % 65536) cs1

/-- The call `sscanf(command, "angle,%f,time,%hu", &angle, &time_ms)`: the number of items
assigned, and `angle` and `time_ms` after the call (an item that is not assigned keeps the
value it had). The return value `EOF` is not told from 0; `none` when the input is a form
left out of the embedding. -/
def sscanfAngleTime (command : List Char) (angle : ℚ) (time_ms : Nat) :
    Option (Nat × ℚ × Nat) :=
  match matchLiteral "angle,".toList command with
  | none => some (0, angle, time_ms)
  | some cs1 =>
    match scanFloat cs1 with
    | Conv.unmodelled => none
    | Conv.failed => some (0, angle, time_ms)
    | Conv.matched a cs2 =>
      match matchLiteral ",time,".toList cs2 with
      | none => some (1, a, time_ms)
      | some cs3 =>
        match scanUShort cs3 with
        | Conv.unmodelled => none
        | Conv.failed => some (1, a, time_ms)
        | Conv.matched t _ => some (2, a, t)

/-- Source function `HiWonderServo::executeCommand(command)`: the value returned, the
servo and the serial log after the call. -/
def HiWonderServo.executeCommand (s : HiWonderServo) (serial : Serial) (command : List Char) :
    Option (Bool × HiWonderServo × Serial) :=
  match sscanfAngleTime command 0 500 with
  | none => none
  | some (n, angle, time_ms) =>
    if n = 2 then
      match s.moveAngle serial angle time_ms with
      | some serial1 =>
        some (true, { s with state_ := State.MOVING, status_ := Status.movingTo s.id_ angle },
          serial1)
      | none => none
    else if command = "load".toList then
      match s.load serial with
      | some serial1 => some (true, { s with status_ := Status.loaded s.id_ }, serial1)
      | none => none
    else if command = "unload".toList then
      match s.unload serial with
      | some serial1 => some (true, { s with status_ := Status.unloaded s.id_ }, serial1)
      | none => none
    else some (false, s, serial)

/-! ## The device registry (`device_manager.h`, `device_manager.cpp`)

The registry stores pointers to actuators. A value of the type parameter `α` stands for a
non-null `Actuator*`, `none` for `nullptr`, and `getId d` for the virtual call
`d->getId()`. -/

/-- The constant `DeviceManager::MAX_DEVICES`. -/
def MAX_DEVICES : Nat := 10

/-- The data members of `DeviceManager`: the array `devices_` and `device_count_`. -/
structure DeviceManager (α : Type) where
  devices_ : List (Option α)
  device_count_ : Nat

/-- The registry as constructed: `devices_[MAX_DEVICES] = {nullptr}`,
`device_count_ = 0`. -/
def DeviceManager.new {α : Type} : DeviceManager α :=
  { devices_ := List.replicate MAX_DEVICES none, device_count_ := 0 }

/-- The pointer `devices_[i]` as the target of a member call `devices_[i]->...`: undefined
outside the array and for a null pointer. -/
def DeviceManager.deref {α : Type} (dm : DeviceManager α) (i : Nat) : Option α :=
  match dm.devices_[i]? with
  | some (some d) => some d
  | _ => none

/-- The loop of `registerDevice`,
`for (uint8_t i = 0; i < device_count_; i++) if (devices_[i]->getId() == device->getId())`,
with `n` the number of iterations still to run: `some true` when an entry has the id. -/
def registerDeviceLoop {α : Type} (getId : α → Nat) (dm : DeviceManager α) (id : Nat) :
    Nat → Nat → Option Bool
  | 0, _ => some false
  | n + 1, i =>
    match dm.deref i with
    | some d => if getId d = id then some true else registerDeviceLoop getId dm id n (i + 1)
    | none => none

/-- Source function `DeviceManager::registerDevice(device)`: the value returned and the
registry after the call. -/
def DeviceManager.registerDevice {α : Type} (getId : α → Nat) (dm : DeviceManager α)
    (device : α) : Option (Bool × DeviceManager α) :=
  if MAX_DEVICES ≤ dm.device_count_ then some (false, dm)
  else
    match registerDeviceLoop getId dm (getId device) dm.device_count_ 0 with
    | none => none
    | some true => some (false, dm)
    | some false =>
      if dm.device_count_ < dm.devices_.length then
        some (true, { devices_ := dm.devices_.set dm.device_count_ (some device),
                      device_count_ := (dm.device_count_ + 1) % 256 })
      else none

/-- The loop of `getDevice`,
`for (uint8_t i = 0; i < device_count_; i++) if (devices_[i]->getId() == id) return devices_[i];`,
with `n` the number of iterations still to run; `some none` is the `nullptr` returned
after the loop. -/
def getDeviceLoop {α : Type} (getId : α → Nat) (dm : DeviceManager α) (id : Nat) :
    Nat → Nat → Option (Option α)
  | 0, _ => some none
  | n + 1, i =>
    match dm.deref i with
    | some d => if getId d = id then some (some d) else getDeviceLoop getId dm id n (i + 1)
    | none => none

/-- Source function `DeviceManager::getDevice(id)`. -/
def DeviceManager.getDevice {α : Type} (getId : α → Nat) (dm : DeviceManager α) (id : Nat) :
    Option (Option α) :=
  getDeviceLoop getId dm id dm.device_count_ 0

/-- Source function `DeviceManager::getDeviceCount()`. -/
def DeviceManager.getDeviceCount {α : Type} (dm : DeviceManager α) : Nat :=
  dm.device_count_

/-- Source function `DeviceManager::getDeviceAt(index)`. -/
def DeviceManager.getDeviceAt {α : Type} (dm : DeviceManager α) (index : Nat) :
    Option (Option α) :=
  if dm.device_count_ ≤ index then some none else dm.devices_[index]?

/-- A sequence of `registerDevice` calls, the values returned being discarded (as `setup`
in `main.cpp` only reports them): the registry after the last call. -/
def DeviceManager.registerAll {α : Type} (getId : α → Nat) :
    DeviceManager α → List α → Option (DeviceManager α)
  | dm, [] => some dm
  | dm, d :: ds =>
    match dm.registerDevice getId d with
    | some (_, dm1) => DeviceManager.registerAll getId dm1 ds
    | none => none

/-! ## Notions of the specification -/

/-- The registered actuators, in registration order: the pointers held by the first
`device_count_` cells of `devices_`. -/
def DeviceManager.registered {α : Type} (dm : DeviceManager α) : List α :=
  (dm.devices_.take dm.device_count_).reduceOption

/-- The representation of a registry: an array of `MAX_DEVICES` cells of which the first
`device_count_` hold an actuator. -/
def DeviceManager.WellFormed {α : Type} (dm : DeviceManager α) : Prop :=
  dm.devices_.length = MAX_DEVICES ∧ dm.device_count_ ≤ MAX_DEVICES ∧
    ∀ i, i < dm.device_count_ → ∃ d, dm.devices_[i]? = some (some d)

/-- The configuration invariant of the data model: `min_angle < max_angle` and
`min_pos < max_pos`. -/
def HiWonderServo.ValidConfig (s : HiWonderServo) : Prop :=
  s.min_angle_ < s.max_angle_ ∧ s.min_pos_ < s.max_pos_

/-- The Frame invariant of the data model, for the bytes of one write: two header bytes
`0x55`, a length byte at offset 3 equal to the number of payload bytes plus 3 (the frame
has six bytes besides its payload), and a last byte equal to the complement, cut to eight
bits, of the sum of the bytes from index 2 to index length + 1. -/
def FrameInvariant (f : List Nat) : Prop :=
  6 ≤ f.length ∧ f.getD 0 0 = 0x55 ∧ f.getD 1 0 = 0x55 ∧
    f.getD 3 0 = (f.length - 6) + 3 ∧
    f.getLast? = some (255 - ((f.drop 2).take (f.getD 3 0)).sum % 256)

instance (f : List Nat) : Decidable (FrameInvariant f) := by
  unfold FrameInvariant
  exact inferInstance

/-- The number written by a run of decimal digits. -/
def decimalValue (ds : List Char) : Nat :=
  ds.foldl (fun acc c => 10 * acc + digitVal c) 0

/-- Source function `HiWonderServo::update()`: nothing is done. -/
def HiWonderServo.update (s : HiWonderServo) : HiWonderServo := s

/-- One call of `Serial.println` or `Serial.printf` made by `printStatus`:
`"=== Device Status ==="`, `"  %s\n"` with the status text of a device, and
`"===================="`. -/
inductive UsbLine where
  | header
  | device (status : Status)
  | footer
  deriving DecidableEq

/-- The state outside the registry and the parser: the servo object behind each pointer,
the log of the servo bus, and what was printed on the USB serial port. -/
structure World (α : Type) where
  servos : α → HiWonderServo
  serial : Serial
  usb : List UsbLine

/-- The virtual call `d->getId()`. -/
def World.getId {α : Type} (w : World α) (d : α) : Nat := (w.servos d).getId

/-- The virtual call `d->getStatus()`. -/
def World.getStatus {α : Type} (w : World α) (d : α) : Status := (w.servos d).getStatus

/-- The virtual call `d->stop()`: the object behind `d` and the servo bus change. -/
def World.stop {α : Type} [DecidableEq α] (d : α) (w : World α) : Option (World α) :=
  match (w.servos d).stop w.serial with
  | some (s1, serial1) =>
    some { servos := Function.update w.servos d s1, serial := serial1, usb := w.usb }
  | none => none

/-- The virtual call `d->executeCommand(command)`: the value returned; the object behind
`d` and the servo bus change. -/
def World.executeCommand {α : Type} [DecidableEq α] (d : α) (command : List Char)
    (w : World α) : Option (Bool × World α) :=
  match (w.servos d).executeCommand w.serial command with
  | some (r, s1, serial1) =>
    some (r, { servos := Function.update w.servos d s1, serial := serial1, usb := w.usb })
  | none => none

/-- Source function `DeviceManager::executeDeviceCommand(device_id, command)`. -/
def DeviceManager.executeDeviceCommand {α : Type} [DecidableEq α] (dm : DeviceManager α)
    (device_id : Nat) (command : List Char) (w : World α) : Option (Bool × World α) :=
  match dm.getDevice w.getId device_id with
  | none => none
  | some none => some (false, w)
  | some (some device) => w.executeCommand device command

/-- The loop of `stopAll`, `for (uint8_t i = 0; i < device_count_; i++) devices_[i]->stop();`,
with `n` the number of iterations still to run. -/
def stopAllLoop {α : Type} [DecidableEq α] (dm : DeviceManager α) :
    Nat → Nat → World α → Option (World α)
  | 0, _, w => some w
  | n + 1, i, w =>
    match dm.deref i with
    | some d =>
      match w.stop d with
      | some w1 => stopAllLoop dm n (i + 1) w1
      | none => none
    | none => none

/-- Source function `DeviceManager::stopAll()`. -/
def DeviceManager.stopAll {α : Type} [DecidableEq α] (dm : DeviceManager α) (w : World α) :
    Option (World α) :=
  stopAllLoop dm dm.device_count_ 0 w

/-- The loop of `printStatus`, with `n` the number of iterations still to run. -/
def printStatusLoop {α : Type} (dm : DeviceManager α) : Nat → Nat → World α → Option (World α)
  | 0, _, w => some w
  | n + 1, i, w =>
    match dm.deref i with
    | some d =>
      printStatusLoop dm n (i + 1) { w with usb := w.usb ++ [UsbLine.device (w.getStatus d)] }
    | none => none

/-- Source function `DeviceManager::printStatus()`. -/
def DeviceManager.printStatus {α : Type} (dm : DeviceManager α) (w : World α) :
    Option (World α) :=
  match printStatusLoop dm dm.device_count_ 0 { w with usb := w.usb ++ [UsbLine.header] } with
  | some w1 => some { w1 with usb := w1.usb ++ [UsbLine.footer] }
  | none => none

/-! ## The command parser (`command_parser.h`, `command_parser.cpp`)

A byte of the command stream is a `Char`. The array `command_buffer_` is the list of its
`BUFFER_SIZE` cells; a pointer into it is an offset, and the C string at a pointer is read
up to the first null character. -/

/-- The constant `CommandParser::BUFFER_SIZE`. -/
def BUFFER_SIZE : Nat := 256

/-- The null character that ends a C string. -/
def NUL : Char := Char.ofNat 0

/-- The C string that starts at the head of a run of cells: the characters before the
first null character; undefined when the cells end before a null character. -/
def cStringFrom : List Char → Option (List Char)
  | [] => none
  | c :: cs =>
    if c = NUL then some []
    else
      match cStringFrom cs with
      | some s => some (c :: s)
      | none => none

/-- The static members of `CommandParser` (`error_msg_` is never used). -/
structure CommandParser where
  command_buffer_ : List Char
  buffer_pos_ : Nat
  last_result_ : Bool
  deriving DecidableEq

/-- The static members as initialised: the array is zero-initialised, `buffer_pos_ = 0`,
`last_result_ = false`. -/
def CommandParser.new : CommandParser :=
  { command_buffer_ := List.replicate BUFFER_SIZE NUL, buffer_pos_ := 0, last_result_ := false }

/-- One call of the C function `strtok` with the delimiter `","` on the text `work` of
`work_buf`, resuming at offset `i`: commas are skipped, and the result is `none` (a null
pointer) when the text ends there; otherwise it is the offset and the length of the token
and the offset at which the next call resumes (after the comma that ended the token, or at
the end of the text). -/
def strtok (work : List Char) (i : Nat) : Option (Nat × Nat × Nat) :=
  let skipped := ((work.drop i).takeWhile (fun c => decide (c = ','))).length
  let start := i + skipped
  let len := ((work.drop start).takeWhile (fun c => decide (c ≠ ','))).length
  if len = 0 then none
  else some (start, len, if start + len < work.length then start + len + 1 else start + len)

/-- The C function `atoi`: white space, an optional sign and decimal digits; 0 when there
is no digit; undefined when the value does not fit `int`. -/
def atoi (s : List Char) : Option Int :=
  match scanSign (skipSpace s) with
  | (neg, cs) =>
    match scanDigits cs 0 0 with
    | (v, _, _) =>
      let r : Int := if neg then -(v : Int) else (v : Int)
      if -2147483648 ≤ r ∧ r ≤ 2147483647 then some r else none

/-- Source function `CommandParser::parseAndExecute(cmd_str)`, where `cmd_str` is the
memory that the pointer addresses (the cells of `command_buffer_` when `update` calls
it). `work` is the text that `strncpy` leaves in `work_buf`; the pointer `remaining` is
`cmd_str + (id_str - work_buf) + strlen(id_str) + 1`, and the string at it is read from
`cmd_str` when a device executes the command. -/
def CommandParser.parseAndExecute {α : Type} [DecidableEq α] (dm : DeviceManager α)
    (cmd_str : List Char) (w : World α) : Option (Bool × World α) :=
  match cStringFrom (cmd_str.take BUFFER_SIZE) with
  | none => none
  | some work =>
    if work = "STATUS".toList then
      match dm.printStatus w with
      | some w1 => some (true, w1)
      | none => none
    else if work = "STOP_ALL".toList then
      match dm.stopAll w with
      | some w1 => some (true, w1)
      | none => none
    else
      match strtok work 0 with
      | none => some (false, w)
      | some (_, _, next) =>
        match strtok work next with
        | none => some (false, w)
        | some (id_off, id_len, _) =>
          match atoi ((work.drop id_off).take id_len) with
          | none => none
          | some v =>
            match cStringFrom (cmd_str.drop (id_off + id_len + 1)) with
            | some remaining => dm.executeDeviceCommand (v % 256).toNat remaining w
            | none =>
              match dm.getDevice w.getId (v % 256).toNat with
              | some none => some (false, w)
              | _ => none

/-- The loop of `CommandParser::update()` on the bytes that `Serial.read()` returns while
`Serial.available() > 0`. The call `parseAndExecute(command_buffer_)` is the parameter
`dispatch`, which is handed the cells of the array. -/
def updateLoop {W : Type} (dispatch : List Char → W → Option (Bool × W)) :
    CommandParser → W → List Char → Option (CommandParser × W)
  | p, w, [] => some (p, w)
  | p, w, c :: cs =>
    if c = Char.ofNat 10 ∨ c = Char.ofNat 13 then
      if 0 < p.buffer_pos_ then
        if p.buffer_pos_ < p.command_buffer_.length then
          match dispatch (p.command_buffer_.set p.buffer_pos_ NUL) w with
          | some (r, w1) =>
            updateLoop dispatch
              { command_buffer_ := p.command_buffer_.set p.buffer_pos_ NUL,
                buffer_pos_ := 0, last_result_ := r } w1 cs
          | none => none
        else none
      else updateLoop dispatch p w cs
    else if p.buffer_pos_ < BUFFER_SIZE - 1 then
      if p.buffer_pos_ < p.command_buffer_.length then
        updateLoop dispatch
          { p with command_buffer_ := p.command_buffer_.set p.buffer_pos_ c,
                   buffer_pos_ := p.buffer_pos_ + 1 } w cs
      else none
    else updateLoop dispatch p w cs

/-- Source function `CommandParser::update()`, on the bytes available on the USB serial
port. -/
def CommandParser.update {α : Type} [DecidableEq α] (dm : DeviceManager α)
    (p : CommandParser) (w : World α) (bytes : List Char) :
    Option (CommandParser × World α) :=
  updateLoop (CommandParser.parseAndExecute dm) p w bytes

/-! ## Notions of the specification for the dispatcher -/

/-- The servo behind `d` after a call of `stop()` on it, and the servo bus with the
move-stop frame of that servo appended: command `0x0C`, no payload, length byte 3. -/
def World.afterStop {α : Type} [DecidableEq α] (w : World α) (d : α) : World α :=
  { servos := Function.update w.servos d
      { w.servos d with state_ := State.IDLE, status_ := Status.stopped (w.servos d).id_ },
    serial := w.serial ++ [[0x55, 0x55, (w.servos d).id_, 3, 0x0C,
      255 - ((w.servos d).id_ + 3 + 0x0C) % 256]],
    usb := w.usb }

/-- The line terminators of the command stream: line feed and carriage return. -/
def isTerminator (c : Char) : Bool := c = Char.ofNat 10 || c = Char.ofNat 13

/-- The segments obtained by splitting the stream at its terminators; the last one is what
follows the last terminator. -/
def segments (bytes : List Char) : List (List Char) := bytes.splitOnP isTerminator

/-- The text of a run of bytes read as a C string: the bytes before the first null
character. -/
def cText (s : List Char) : List Char := s.takeWhile (fun c => decide (c ≠ NUL))

/-- A dispatch that only records the command text it is handed, for observing what
`update` dispatches. -/
def recordCommand (cmd_str : List Char) (log : List (List Char)) :
    Option (Bool × List (List Char)) :=
  match cStringFrom cmd_str with
  | some s => some (true, log ++ [s])
  | none => none

/-- The memory of the command buffer that holds the line `line`, then the null character
that ends it, then `tail`, whatever earlier lines left there. -/
def lineBuffer (line tail : List Char) : List Char := line ++ NUL :: tail

/-- The segments of the stream `bytes` when `cur` is what has been read of the current
segment before it. -/
def segmentsFrom (cur bytes : List Char) : List (List Char) :=
  (segments bytes).modifyHead (fun s => cur ++ s)

/-- The parser holds the unfinished segment `cur`: the array has `BUFFER_SIZE` cells,
`buffer_pos_` is the length of `cur`, capped at 255, and the first `buffer_pos_` cells are
the first bytes of `cur`. -/
def CommandParser.Holds (p : CommandParser) (cur : List Char) : Prop :=
  p.command_buffer_.length = BUFFER_SIZE ∧ p.buffer_pos_ = min cur.length 255 ∧
    p.command_buffer_.take p.buffer_pos_ = cur.take 255

/-- A dispatch that does what `dispatch` does and also records the command text it is
handed, for observing what `update` dispatches when it runs `dispatch`. -/
def observe {W : Type} (dispatch : List Char → W → Option (Bool × W)) (cmd_str : List Char)
    (wl : W × List (List Char)) : Option (Bool × (W × List (List Char))) :=
  match dispatch cmd_str wl.1 with
  | some (r, w1) => some (r, (w1, wl.2 ++ [(cStringFrom cmd_str).getD []]))
  | none => none

/-- The command texts that the assembler dispatches for a stream, `cur` being what has been
read of the current segment before it: the first 255 bytes, read as C strings, of the
finished segments that are not empty. -/
def dispatched (cur bytes : List Char) : List (List Char) :=
  ((segmentsFrom cur bytes).dropLast.filter (fun s => decide (s ≠ []))).map
    (fun s => cText (s.take 255))

/-- The unfinished segment that a stream leaves: what follows its last terminator. -/
def unfinished (cur bytes : List Char) : List Char :=
  ((segmentsFrom cur bytes).getLast?).getD []
/-! ## The frame encoder -/

theorem copyPayload_append (P : List Nat) : ∀ (pre rest : Buf) (i : Nat),
    pre.length = 5 + i → P.length ≤ rest.length →
    copyPayload (pre ++ rest) i P = some (pre ++ P.map some ++ rest.drop P.length) := by
  induction P with
  | nil => intro pre rest i _ _; simp [copyPayload]
  | cons p ps ih =>
    intro pre rest i hpre hlen
    cases rest with
    | nil => simp at hlen
    | cons r rs =>
      have hw : Buf.write (pre ++ r :: rs) (5 + i) p = some ((pre ++ [some p]) ++ rs) := by
        unfold Buf.write
        rw [if_pos (by simp; omega)]
        rw [← hpre]
        simp
      simp only [copyPayload, hw]
      rw [ih (pre ++ [some p]) rs (i + 1) (by simp; omega) (by simpa using hlen)]
      simp

theorem Buf.read_length_append (pre rest : Buf) (x : Nat) :
    Buf.read (pre ++ some x :: rest) pre.length = some x := by
  unfold Buf.read
  rw [List.getElem?_append_right (le_refl _)]
  simp

theorem checksumLoop_append (xs : List Nat) : ∀ (pre rest : Buf) (s : Nat), s < 65536 →
    checksumLoop (pre ++ xs.map some ++ rest) xs.length pre.length s
      = some ((s + xs.sum) % 65536) := by
  induction xs with
  | nil => intro pre rest s hs; simp [checksumLoop]; omega
  | cons x xs ih =>
    intro pre rest s hs
    have hr : Buf.read (pre ++ (x :: xs).map some ++ rest) pre.length = some x := by
      simpa using Buf.read_length_append pre (xs.map some ++ rest) x
    simp only [List.length_cons, checksumLoop, hr]
    have := ih (pre ++ [some x]) rest ((s + x) % 65536) (Nat.mod_lt _ (by norm_num))
    simp only [List.length_append, List.length_singleton, List.append_assoc,
      List.singleton_append] at this
    simp only [List.map_cons, List.append_assoc, List.cons_append] at this ⊢
    rw [this]
    simp only [List.sum_cons]
    congr 1
    omega

theorem Buf.readPrefix_append : ∀ (n : Nat) (xs : List Nat) (rest : Buf), xs.length = n →
    Buf.readPrefix (xs.map some ++ rest) n = some xs := by
  intro n
  induction n with
  | zero => intro xs rest h; simp [Buf.readPrefix, List.length_eq_zero.mp h]
  | succ n ih =>
    intro xs rest h
    obtain ⟨ys, y, rfl⟩ : ∃ ys y, xs = ys ++ [y] := by
      rcases List.eq_nil_or_concat xs with h0 | ⟨ys, y, h1⟩
      · subst h0; simp at h
      · exact ⟨ys, y, by simpa using h1⟩
    have hy : ys.length = n := by simpa using h
    have e : (ys ++ [y]).map some ++ rest = ys.map some ++ (some y :: rest) := by simp
    have h1 := ih ys (some y :: rest) hy
    have h2 : Buf.read (ys.map some ++ some y :: rest) n = some y := by
      have := Buf.read_length_append (ys.map some) rest y
      simpa [hy] using this
    rw [e]
    simp only [Buf.readPrefix, h1, h2]


theorem checksum_frame (id command : Nat) (P : List Nat) (rest : Buf) :
    checksum ([some 0x55, some 0x55, some id, some (P.length + 3), some command]
        ++ P.map some ++ rest)
      = some ((65535 - (id + (P.length + 3) + command + P.sum) % 65536) % 256) := by
  have h := checksumLoop_append ([id, P.length + 3, command] ++ P) [some 0x55, some 0x55]
    rest 0 (by norm_num)
  have h3 : Buf.read ([some 0x55, some 0x55, some id, some (P.length + 3),
      some command] ++ P.map some ++ rest) 3 = some (P.length + 3) := by
    simp [Buf.read]
  have e : ([id, P.length + 3, command] ++ P).length = P.length + 3 := by
    simp
  have e2 : 0 + ([id, P.length + 3, command] ++ P).sum
      = id + (P.length + 3) + command + P.sum := by
    simp only [List.sum_append, List.sum_cons, List.sum_nil]; omega
  have e3 : [some 0x55, some 0x55] ++ ([id, P.length + 3, command] ++ P).map some ++ rest
      = [some 0x55, some 0x55, some id, some (P.length + 3), some command]
        ++ P.map some ++ rest := by simp
  rw [e, e2, e3] at h
  unfold checksum
  rw [h3]
  show (match checksumLoop ([some 0x55, some 0x55, some id, some (P.length + 3), some command]
        ++ P.map some ++ rest) (P.length + 3) 2 0 with
      | some sum => some ((65535 - sum) % 256)
      | none => none) = _
  have h' : checksumLoop ([some 0x55, some 0x55, some id, some (P.length + 3), some command]
        ++ P.map some ++ rest) (P.length + 3) 2 0
      = some ((id + (P.length + 3) + command + P.sum) % 65536) := h
  rw [h']

theorem sendFrame_eq (serial : Serial) (id command : Nat) (P : List Nat)
    (hP : P.length ≤ 10) :
    sendFrame serial id command P
      = some (serial ++ [[0x55, 0x55, id, P.length + 3, command] ++ P
          ++ [(65535 - (id + (P.length + 3) + command + P.sum) % 65536) % 256]]) := by
  have hlen : (P.length + 3) % 256 = P.length + 3 := Nat.mod_eq_of_lt (by omega)
  obtain ⟨k, hk⟩ : ∃ k, 11 - P.length = k + 1 := ⟨10 - P.length, by omega⟩
  have hcopy : copyPayload ([some 0x55, some 0x55, some id, some (P.length + 3),
      some command] ++ List.replicate 11 none) 0 P
      = some ([some 0x55, some 0x55, some id, some (P.length + 3), some command]
          ++ P.map some ++ (none :: List.replicate k none)) := by
    rw [copyPayload_append P [some 0x55, some 0x55, some id, some (P.length + 3), some command]
      (List.replicate 11 none) 0 rfl (by rw [List.length_replicate]; omega),
      List.drop_replicate, hk, List.replicate_succ]
  have hwr : Buf.write ([some 0x55, some 0x55, some id, some (P.length + 3), some command]
      ++ P.map some ++ (none :: List.replicate k none)) (5 + P.length)
      ((65535 - (id + (P.length + 3) + command + P.sum) % 65536) % 256)
      = some (([0x55, 0x55, id, P.length + 3, command] ++ P
          ++ [(65535 - (id + (P.length + 3) + command + P.sum) % 65536) % 256]).map some
          ++ List.replicate k none) := by
    unfold Buf.write
    rw [if_pos (by simp; omega)]
    have e : 5 + P.length = ([some 0x55, some 0x55, some id, some (P.length + 3),
      some command] ++ P.map some).length := by simp; omega
    rw [e, List.set_append_right _ _ (le_refl _)]
    simp
  have hrd := Buf.readPrefix_append (6 + P.length) ([0x55, 0x55, id, P.length + 3, command]
    ++ P ++ [(65535 - (id + (P.length + 3) + command + P.sum) % 65536) % 256])
    (List.replicate k none) (by simp; omega)
  unfold sendFrame
  simp only [hlen]
  have hhdr : ∀ (f : Buf → Option Serial),
      (match Buf.fresh.write 0 FRAME_HEADER with
      | none => none
      | some b0 =>
      match b0.write 1 FRAME_HEADER with
      | none => none
      | some b1 =>
      match b1.write 2 id with
      | none => none
      | some b2 =>
      match b2.write 3 (P.length + 3) with
      | none => none
      | some b3 =>
      match b3.write 4 command with
      | none => none
      | some b4 => f b4)
      = f ([some 0x55, some 0x55, some id, some (P.length + 3), some command]
          ++ List.replicate 11 none) := by
    intro f
    simp [Buf.fresh, Buf.write, FRAME_HEADER, List.replicate]
  rw [hhdr, hcopy]
  simp only [checksum_frame, hwr, hrd]


/-- C1: for every id, command byte and payload `P` of at most 10 bytes, `sendFrame` makes
one write, of exactly the bytes `[0x55, 0x55, id, len(P)+3, command] ++ P ++ [c]`,
`len(P)+6` bytes in all, where `c = (~(id + (len(P)+3) + command + sum(P))) & 0xFF`, the
number `255 - (id + (len(P)+3) + command + sum(P)) % 256`. -/
theorem sendFrame_writes_frame (serial : Serial) (id command : Nat) (P : List Nat)
    (hP : P.length ≤ 10) :
    sendFrame serial id command P
      = some (serial ++ [[0x55, 0x55, id, P.length + 3, command] ++ P
          ++ [255 - (id + (P.length + 3) + command + P.sum) % 256]]) ∧
    ([0x55, 0x55, id, P.length + 3, command] ++ P
          ++ [255 - (id + (P.length + 3) + command + P.sum) % 256]).length = P.length + 6 := by
  constructor
  · rw [sendFrame_eq serial id command P hP]
    have : (65535 - (id + (P.length + 3) + command + P.sum) % 65536) % 256
        = 255 - (id + (P.length + 3) + command + P.sum) % 256 := by omega
    rw [this]
  · simp

theorem sendFrame_writes_frame_witness :
    [1, 2, 3, 4].length ≤ 10 ∧
    sendFrame [] 1 CMD_MOVE_TIME_WRITE [1, 2, 3, 4]
      = some ([] ++ [[0x55, 0x55, 1, [1, 2, 3, 4].length + 3, CMD_MOVE_TIME_WRITE]
          ++ [1, 2, 3, 4]
          ++ [255 - (1 + ([1, 2, 3, 4].length + 3) + CMD_MOVE_TIME_WRITE
                + [1, 2, 3, 4].sum) % 256]]) ∧
    ([0x55, 0x55, 1, [1, 2, 3, 4].length + 3, CMD_MOVE_TIME_WRITE] ++ [1, 2, 3, 4]
          ++ [255 - (1 + ([1, 2, 3, 4].length + 3) + CMD_MOVE_TIME_WRITE
                + [1, 2, 3, 4].sum) % 256]).length = [1, 2, 3, 4].length + 6 :=
  ⟨by decide, sendFrame_writes_frame [] 1 CMD_MOVE_TIME_WRITE [1, 2, 3, 4] (by decide)⟩

/-- Every frame that `sendFrame` writes for a payload of at most 10 bytes satisfies the
Frame invariant. -/
theorem frameInvariant_of_sendFrame (id command : Nat) (P : List Nat) :
    FrameInvariant ([0x55, 0x55, id, P.length + 3, command] ++ P
      ++ [255 - (id + (P.length + 3) + command + P.sum) % 256]) := by
  unfold FrameInvariant
  refine ⟨by simp, by simp, by simp, by simp, ?_⟩
  have h3 : ([0x55, 0x55, id, P.length + 3, command] ++ P
      ++ [255 - (id + (P.length + 3) + command + P.sum) % 256]).getD 3 0 = P.length + 3 := by
    simp
  rw [h3, List.getLast?_append]
  have e : List.take (P.length + 3) (List.drop 2 ([0x55, 0x55, id, P.length + 3, command] ++ P
      ++ [255 - (id + (P.length + 3) + command + P.sum) % 256]))
      = [id, P.length + 3, command] ++ P := by
    simp
  rw [e]
  simp only [List.sum_append, List.sum_cons, List.sum_nil, List.getLast?_singleton]
  show some _ = some _
  congr 3
  omega

/-- The frames of `stop`, `load`, `move` and `moveAngle` satisfy the Frame invariant. -/
theorem servo_frames_invariant (s : HiWonderServo) (serial : Serial) :
    (∀ s1 serial1, s.stop serial = some (s1, serial1) →
      ∃ f, serial1 = serial ++ [f] ∧ FrameInvariant f) ∧
    (∀ serial1, s.load serial = some serial1 →
      ∃ f, serial1 = serial ++ [f] ∧ FrameInvariant f) ∧
    (∀ position time_ms serial1, s.move serial position time_ms = some serial1 →
      ∃ f, serial1 = serial ++ [f] ∧ FrameInvariant f) ∧
    (∀ angle time_ms serial1, s.moveAngle serial angle time_ms = some serial1 →
      ∃ f, serial1 = serial ++ [f] ∧ FrameInvariant f) := by
  have hmove : ∀ position time_ms serial1, s.move serial position time_ms = some serial1 →
      ∃ f, serial1 = serial ++ [f] ∧ FrameInvariant f := by
    intro position time_ms serial1 h
    unfold HiWonderServo.move at h
    simp only [] at h
    rw [sendFrame_eq serial _ _ _ (by simp)] at h
    refine ⟨_, (Option.some.inj h).symm, ?_⟩
    have := frameInvariant_of_sendFrame s.id_ CMD_MOVE_TIME_WRITE
      [constrain position s.min_pos_ s.max_pos_ % 256,
       constrain position s.min_pos_ s.max_pos_ / 256 % 256, time_ms % 256,
       time_ms / 256 % 256]
    convert this using 3
    omega
  refine ⟨?_, ?_, hmove, ?_⟩
  · intro s1 serial1 h
    unfold HiWonderServo.stop at h
    rw [sendFrame_eq serial _ _ _ (by simp)] at h
    simp only [Option.some.injEq, Prod.mk.injEq] at h
    refine ⟨_, h.2.symm, ?_⟩
    have := frameInvariant_of_sendFrame s.id_ CMD_MOVE_STOP []
    convert this using 3
    omega
  · intro serial1 h
    unfold HiWonderServo.load at h
    rw [sendFrame_eq serial _ _ _ (by simp)] at h
    refine ⟨_, (Option.some.inj h).symm, ?_⟩
    have := frameInvariant_of_sendFrame s.id_ CMD_LOAD_OR_UNLOAD_WRITE [1]
    convert this using 3
    omega
  · intro angle time_ms serial1 h
    unfold HiWonderServo.moveAngle at h
    cases hp : s.angleToPosition angle with
    | none => simp [hp] at h
    | some p => rw [hp] at h; exact hmove p time_ms serial1 h

/-- The frame of `unload` breaks the Frame invariant whatever the id of the servo: its
length byte is 4 while it carries no payload byte besides the six bytes of a frame. -/
theorem unload_frame_not_invariant (s : HiWonderServo) (serial : Serial) :
    ∃ f, s.unload serial = some (serial ++ [f]) ∧ ¬ FrameInvariant f := by
  refine ⟨_, rfl, ?_⟩
  unfold FrameInvariant
  simp

/-- C2, at the failing input: `unload()` on the servo with id 1 writes the six bytes
`55 55 01 04 14 00`, which do not satisfy the Frame invariant: the length byte 4 announces
a seven-byte frame, and the last byte is not the checksum `0xE6` of the bytes before it. -/
theorem unload_breaks_frame_invariant :
    (HiWonderServo.new 1).unload [] = some [[0x55, 0x55, 1, 0x04, 0x14, 0x00]] ∧
    ¬ FrameInvariant [0x55, 0x55, 1, 0x04, 0x14, 0x00] ∧
    [0x55, 0x55, 1, 0x04, 0x14, 0x00].length ≠ 0x04 + 3 ∧
    (0x00 : Nat) ≠ 255 - (1 + 0x04 + 0x14) % 256 := by
  refine ⟨rfl, by decide, by decide, by decide⟩

/-! ## The angle to position mapping -/

theorem constrain_nat_bounds (p lo hi : Nat) (h : lo ≤ hi) :
    lo ≤ constrain p lo hi ∧ constrain p lo hi ≤ hi := by
  unfold constrain
  split_ifs <;> omega

theorem isDigit_ne (c : Char) (h : isDigit c = true) :
    isSpace c = false ∧ c ≠ '-' ∧ c ≠ '+' ∧ c ≠ '.' ∧ c ≠ ',' ∧ c ≠ 'i' ∧ c ≠ 'I' ∧ c ≠ 'n'
      ∧ c ≠ 'N' ∧ c ≠ 'x' ∧ c ≠ 'X' := by
  simp only [isDigit, Bool.and_eq_true, decide_eq_true_eq] at h
  refine ⟨?_, ?_, ?_, ?_, ?_, ?_, ?_, ?_, ?_, ?_, ?_⟩
  · simp only [isSpace, Bool.or_eq_false_iff, decide_eq_false_iff_not, Bool.and_eq_false_iff]
    omega
  all_goals (intro e; subst e; revert h; decide)

theorem foldl_digits (ds : List Char) : ∀ acc : Nat,
    ds.foldl (fun acc c => 10 * acc + digitVal c) acc
      = acc * 10 ^ ds.length + decimalValue ds := by
  unfold decimalValue
  induction ds with
  | nil => intro acc; simp
  | cons d ds ih =>
    intro acc
    simp only [List.foldl_cons, List.length_cons]
    rw [ih (10 * acc + digitVal d), ih (10 * 0 + digitVal d)]
    ring

theorem scanDigits_append (ds : List Char) (hds : ∀ c ∈ ds, isDigit c = true)
    (rest : List Char) (hrest : ∀ c r, rest = c :: r → isDigit c = false) :
    ∀ acc n, scanDigits (ds ++ rest) acc n
      = (acc * 10 ^ ds.length + decimalValue ds, n + ds.length, rest) := by
  induction ds with
  | nil =>
    intro acc n
    cases rest with
    | nil => simp [scanDigits, decimalValue]
    | cons c r => simp [scanDigits, decimalValue, hrest c r rfl]
  | cons d ds ih =>
    intro acc n
    have hd : isDigit d = true := hds d (List.mem_cons_self _ _)
    have hstep : scanDigits (d :: ds ++ rest) acc n
        = scanDigits (ds ++ rest) (10 * acc + digitVal d) (n + 1) := by
      simp only [List.cons_append, scanDigits, hd, if_true]
      rfl
    rw [hstep, ih (fun c hc => hds c (List.mem_cons_of_mem _ hc))]
    have := foldl_digits (d :: ds) 0
    simp only [List.foldl_cons] at this
    rw [foldl_digits ds] at this
    simp only [List.length_cons, Prod.mk.injEq, and_true]
    constructor
    · have e : decimalValue (d :: ds)
          = (10 * 0 + digitVal d) * 10 ^ ds.length + decimalValue ds := by
        rw [this]; simp
      rw [e]; ring
    · omega

theorem scanSign_digit (d : Char) (cs : List Char) (hd : isDigit d = true) :
    scanSign (d :: cs) = (false, d :: cs) := by
  obtain ⟨-, h1, h2, -⟩ := isDigit_ne d hd
  unfold scanSign
  split
  · rename_i h; exact absurd (List.cons.inj h).1 h1
  · rename_i h; exact absurd (List.cons.inj h).1 h2
  · rfl

theorem skipSpace_digit (d : Char) (cs : List Char) (hd : isDigit d = true) :
    skipSpace (d :: cs) = d :: cs := by
  simp [skipSpace, (isDigit_ne d hd).1]

theorem map_some_reduceOption {α : Type} : ∀ l : List (Option α),
    (∀ x ∈ l, ∃ d, x = some d) → l.reduceOption.map some = l := by
  intro l
  induction l with
  | nil => intro _; rfl
  | cons x l ih =>
    intro h
    obtain ⟨d, rfl⟩ := h x (List.mem_cons_self _ _)
    rw [List.reduceOption_cons_of_some, List.map_cons,
      ih (fun y hy => h y (List.mem_cons_of_mem _ hy))]

/-- In a well-formed registry the first `device_count_` cells are the registered
actuators. -/
theorem DeviceManager.take_eq {α : Type} (dm : DeviceManager α) (hw : dm.WellFormed) :
    dm.devices_.take dm.device_count_ = dm.registered.map some := by
  unfold DeviceManager.registered
  rw [map_some_reduceOption]
  intro x hx
  obtain ⟨i, hi, rfl⟩ := List.getElem_of_mem hx
  have hlt : i < dm.device_count_ := by
    have := hi
    rw [List.length_take] at this
    omega
  obtain ⟨d, hd⟩ := hw.2.2 i hlt
  refine ⟨d, ?_⟩
  have h2 : (dm.devices_.take dm.device_count_)[i]? = some (some d) := by
    rw [List.getElem?_take_of_lt hlt]; exact hd
  rw [List.getElem?_eq_getElem hi] at h2
  exact Option.some.inj h2

theorem DeviceManager.registered_length {α : Type} (dm : DeviceManager α)
    (hw : dm.WellFormed) : dm.registered.length = dm.device_count_ := by
  have h := congrArg List.length (dm.take_eq hw)
  rw [List.length_take, List.length_map, hw.1] at h
  have := hw.2.1
  omega

theorem DeviceManager.deref_eq {α : Type} (dm : DeviceManager α) (hw : dm.WellFormed)
    (i : Nat) (hi : i < dm.device_count_) :
    dm.deref i = dm.registered[i]? := by
  have h1 : (dm.devices_.take dm.device_count_)[i]? = dm.devices_[i]? :=
    List.getElem?_take_of_lt hi
  rw [dm.take_eq hw, List.getElem?_map] at h1
  unfold DeviceManager.deref
  rw [← h1]
  cases dm.registered[i]? <;> rfl

/-- The loop of `getDevice` from index `i` returns the first of the registered actuators
from `i` on that has the id. -/
theorem getDeviceLoop_eq {α : Type} (getId : α → Nat) (dm : DeviceManager α)
    (hw : dm.WellFormed) (id : Nat) : ∀ n i, i + n = dm.device_count_ →
    getDeviceLoop getId dm id n i
      = some ((dm.registered.drop i).find? (fun d => decide (getId d = id))) := by
  intro n
  induction n with
  | zero =>
    intro i hi
    rw [List.drop_of_length_le (by rw [dm.registered_length hw]; omega)]
    rfl
  | succ n ih =>
    intro i hi
    have hlt : i < dm.registered.length := by rw [dm.registered_length hw]; omega
    have hd := dm.deref_eq hw i (by omega)
    rw [List.getElem?_eq_getElem hlt] at hd
    rw [List.drop_eq_getElem_cons hlt, List.find?_cons]
    simp only [getDeviceLoop, hd]
    by_cases h : getId dm.registered[i] = id
    · simp [h]
    · simp only [h, if_false, decide_False]
      exact ih (i + 1) (by omega)

/-- The loop of `registerDevice` from index `i` tells whether one of the registered
actuators from `i` on has the id. -/
theorem registerDeviceLoop_eq {α : Type} (getId : α → Nat) (dm : DeviceManager α)
    (hw : dm.WellFormed) (id : Nat) : ∀ n i, i + n = dm.device_count_ →
    registerDeviceLoop getId dm id n i
      = some ((dm.registered.drop i).any (fun d => decide (getId d = id))) := by
  intro n
  induction n with
  | zero =>
    intro i hi
    rw [List.drop_of_length_le (by rw [dm.registered_length hw]; omega)]
    rfl
  | succ n ih =>
    intro i hi
    have hlt : i < dm.registered.length := by rw [dm.registered_length hw]; omega
    have hd := dm.deref_eq hw i (by omega)
    rw [List.getElem?_eq_getElem hlt] at hd
    rw [List.drop_eq_getElem_cons hlt, List.any_cons]
    simp only [registerDeviceLoop, hd]
    by_cases h : getId dm.registered[i] = id
    · simp [h]
    · simp only [h, if_false, decide_False, Bool.false_or]
      exact ih (i + 1) (by omega)

/-- What `registerDevice` does on a well-formed registry. -/
theorem registerDevice_eq {α : Type} (getId : α → Nat) (dm : DeviceManager α)
    (hw : dm.WellFormed) (a : α) :
    dm.registerDevice getId a
      = if dm.device_count_ < MAX_DEVICES ∧ ∀ d ∈ dm.registered, getId d ≠ getId a then
          some (true, { devices_ := dm.devices_.set dm.device_count_ (some a),
                        device_count_ := dm.device_count_ + 1 })
        else some (false, dm) := by
  unfold DeviceManager.registerDevice
  by_cases hfull : MAX_DEVICES ≤ dm.device_count_
  · rw [if_pos hfull, if_neg (by intro h; exact absurd h.1 (by omega))]
  · rw [if_neg hfull, registerDeviceLoop_eq getId dm hw (getId a) dm.device_count_ 0 (by omega),
      List.drop_zero]
    have hlt : dm.device_count_ < MAX_DEVICES := by omega
    by_cases hany : dm.registered.any (fun d => decide (getId d = getId a)) = true
    · rw [hany]
      simp only []
      rw [if_neg]
      rintro ⟨-, hall⟩
      obtain ⟨d, hd, hid⟩ := List.any_eq_true.mp hany
      exact hall d hd (of_decide_eq_true hid)
    · have hany2 : dm.registered.any (fun d => decide (getId d = getId a)) = false := by
        simpa using hany
      rw [hany2]
      simp only []
      have hall : ∀ d ∈ dm.registered, getId d ≠ getId a := by
        intro d hd hid
        exact hany (List.any_eq_true.mpr ⟨d, hd, decide_eq_true hid⟩)
      rw [if_pos (by rw [hw.1]; exact hlt), if_pos ⟨hlt, hall⟩]
      have : (dm.device_count_ + 1) % 256 = dm.device_count_ + 1 := by
        unfold MAX_DEVICES at hlt; omega
      rw [this]

/-- A successful registration keeps the registry well-formed and appends the actuator. -/
theorem registerDevice_success {α : Type} (dm : DeviceManager α) (hw : dm.WellFormed)
    (a : α) (hlt : dm.device_count_ < MAX_DEVICES) :
    (DeviceManager.mk (dm.devices_.set dm.device_count_ (some a))
        (dm.device_count_ + 1)).WellFormed ∧
    (DeviceManager.mk (dm.devices_.set dm.device_count_ (some a))
        (dm.device_count_ + 1)).registered = dm.registered ++ [a] := by
  have hlen : dm.device_count_ < dm.devices_.length := by rw [hw.1]; exact hlt
  constructor
  · refine ⟨by simp [hw.1], by simp only; omega, ?_⟩
    intro i hi
    simp only at hi ⊢
    by_cases h : i = dm.device_count_
    · subst h
      exact ⟨a, List.getElem?_set_self hlen⟩
    · rw [List.getElem?_set_ne (Ne.symm h)]
      exact hw.2.2 i (by omega)
  · unfold DeviceManager.registered
    simp only
    have htake : (dm.devices_.set dm.device_count_ (some a)).take dm.device_count_
        = dm.devices_.take dm.device_count_ := by
      apply List.ext_getElem?
      intro i
      rw [List.getElem?_take, List.getElem?_take]
      split
      · rw [List.getElem?_set_ne (by omega)]
      · rfl
    rw [List.take_succ, List.getElem?_set_self hlen, htake]
    simp [List.reduceOption_append]

theorem DeviceManager.new_wellFormed {α : Type} :
    (DeviceManager.new : DeviceManager α).WellFormed := by
  refine ⟨by simp [DeviceManager.new], by simp [DeviceManager.new], ?_⟩
  intro i hi
  simp [DeviceManager.new] at hi

theorem DeviceManager.new_registered {α : Type} :
    (DeviceManager.new : DeviceManager α).registered = [] := by
  simp [DeviceManager.new, DeviceManager.registered]

/-- C7: for every registry state and actuator `a`, `registerDevice(a)` returns true if and
only if the registry holds fewer than `MAX_DEVICES` (10) actuators and none of them has
the id of `a`; when it returns true the device count grows by exactly one and `a` becomes
the last entry, the earlier entries being unchanged and in the same order. -/
theorem registerDevice_true_iff {α : Type} (getId : α → Nat) (dm : DeviceManager α) (a : α)
    (hw : dm.WellFormed) :
    ∃ ok dm1, dm.registerDevice getId a = some (ok, dm1) ∧
      (ok = true ↔ dm.getDeviceCount < MAX_DEVICES ∧ dm.registered.length < MAX_DEVICES ∧
        ∀ d ∈ dm.registered, getId d ≠ getId a) ∧
      (ok = true → dm1.getDeviceCount = dm.getDeviceCount + 1 ∧
        dm1.registered = dm.registered ++ [a]) := by
  rw [registerDevice_eq getId dm hw a]
  have hlen := dm.registered_length hw
  by_cases h : dm.device_count_ < MAX_DEVICES ∧ ∀ d ∈ dm.registered, getId d ≠ getId a
  · rw [if_pos h]
    refine ⟨true, _, rfl, ?_, ?_⟩
    · simp only [true_iff]
      exact ⟨h.1, by rw [hlen]; exact h.1, h.2⟩
    · intro _
      exact ⟨rfl, (registerDevice_success dm hw a h.1).2⟩
  · rw [if_neg h]
    refine ⟨false, dm, rfl, ?_, ?_⟩
    · simp only [Bool.false_eq_true, false_iff]
      rintro ⟨h1, -, h3⟩
      exact h ⟨h1, h3⟩
    · intro hf; cases hf

theorem registerDevice_true_iff_witness :
    (DeviceManager.new : DeviceManager Nat).WellFormed ∧
    ∃ ok dm1, (DeviceManager.new : DeviceManager Nat).registerDevice id 7 = some (ok, dm1) ∧
      (ok = true ↔ (DeviceManager.new : DeviceManager Nat).getDeviceCount < MAX_DEVICES ∧
        (DeviceManager.new : DeviceManager Nat).registered.length < MAX_DEVICES ∧
        ∀ d ∈ (DeviceManager.new : DeviceManager Nat).registered, id d ≠ id 7) ∧
      (ok = true →
        dm1.getDeviceCount = (DeviceManager.new : DeviceManager Nat).getDeviceCount + 1 ∧
        dm1.registered = (DeviceManager.new : DeviceManager Nat).registered ++ [7]) :=
  ⟨DeviceManager.new_wellFormed,
   registerDevice_true_iff id DeviceManager.new 7 DeviceManager.new_wellFormed⟩

/-- C8: a failed registration is atomic: on every registry state `registerDevice` returns,
and whenever it returns false (duplicate id or registry at capacity) the registry is what
it was before the call: the same device count and the same entries. -/
theorem registerDevice_false_unchanged {α : Type} (getId : α → Nat) (dm : DeviceManager α)
    (a : α) (hw : dm.WellFormed) :
    ∃ ok dm1, dm.registerDevice getId a = some (ok, dm1) ∧
      (ok = false → dm1 = dm ∧ dm1.getDeviceCount = dm.getDeviceCount ∧
        dm1.devices_ = dm.devices_ ∧ dm1.registered = dm.registered) ∧
      (ok = false ↔
        MAX_DEVICES ≤ dm.getDeviceCount ∨ ∃ d ∈ dm.registered, getId d = getId a) := by
  rw [registerDevice_eq getId dm hw a]
  by_cases h : dm.device_count_ < MAX_DEVICES ∧ ∀ d ∈ dm.registered, getId d ≠ getId a
  · rw [if_pos h]
    refine ⟨true, _, rfl, ?_, ?_⟩
    · intro hf; cases hf
    · simp only [Bool.true_eq_false, false_iff, not_or, not_le, not_exists, not_and]
      exact ⟨h.1, h.2⟩
  · rw [if_neg h]
    refine ⟨false, dm, rfl, fun _ => ⟨rfl, rfl, rfl, rfl⟩, ?_⟩
    simp only [true_iff]
    by_cases hfull : MAX_DEVICES ≤ dm.getDeviceCount
    · exact Or.inl hfull
    · right
      by_contra hne
      apply h
      refine ⟨by unfold DeviceManager.getDeviceCount at hfull; omega, ?_⟩
      intro d hd hid
      exact hne ⟨d, hd, hid⟩

theorem registerDevice_false_unchanged_witness :
    (DeviceManager.mk (some 7 :: List.replicate 9 none) 1 : DeviceManager Nat).WellFormed ∧
    ∃ ok dm1, (DeviceManager.mk (some 7 :: List.replicate 9 none) 1 :
        DeviceManager Nat).registerDevice id 7 = some (ok, dm1) ∧
      (ok = false → dm1 = DeviceManager.mk (some 7 :: List.replicate 9 none) 1 ∧
        dm1.getDeviceCount
          = (DeviceManager.mk (some 7 :: List.replicate 9 none) 1 :
              DeviceManager Nat).getDeviceCount ∧
        dm1.devices_
          = (DeviceManager.mk (some 7 :: List.replicate 9 none) 1 :
              DeviceManager Nat).devices_ ∧
        dm1.registered
          = (DeviceManager.mk (some 7 :: List.replicate 9 none) 1 :
              DeviceManager Nat).registered) ∧
      (ok = false ↔
        MAX_DEVICES ≤ (DeviceManager.mk (some 7 :: List.replicate 9 none) 1 :
            DeviceManager Nat).getDeviceCount ∨
        ∃ d ∈ (DeviceManager.mk (some 7 :: List.replicate 9 none) 1 :
            DeviceManager Nat).registered, id d = id 7) :=
  ⟨⟨by simp [MAX_DEVICES], by simp [MAX_DEVICES], by
      intro i hi
      have : i = 0 := by simp only at hi; omega
      subst this
      exact ⟨7, rfl⟩⟩,
   registerDevice_false_unchanged id _ 7
    ⟨by simp [MAX_DEVICES], by simp [MAX_DEVICES], by
      intro i hi
      have : i = 0 := by simp only at hi; omega
      subst this
      exact ⟨7, rfl⟩⟩⟩

/-- Registrations keep a registry well-formed and the ids of its actuators distinct. -/
theorem registerAll_invariant {α : Type} (getId : α → Nat) : ∀ (devices : List α)
    (dm : DeviceManager α), dm.WellFormed → (dm.registered.map getId).Nodup →
    ∃ dm1, dm.registerAll getId devices = some dm1 ∧ dm1.WellFormed ∧
      (dm1.registered.map getId).Nodup := by
  intro devices
  induction devices with
  | nil => intro dm hw hn; exact ⟨dm, rfl, hw, hn⟩
  | cons a as ih =>
    intro dm hw hn
    unfold DeviceManager.registerAll
    rw [registerDevice_eq getId dm hw a]
    by_cases h : dm.device_count_ < MAX_DEVICES ∧ ∀ d ∈ dm.registered, getId d ≠ getId a
    · rw [if_pos h]
      obtain ⟨hw1, hr1⟩ := registerDevice_success dm hw a h.1
      apply ih _ hw1
      rw [hr1, List.map_append, List.map_singleton]
      apply List.Nodup.append hn (List.nodup_singleton _)
      intro x hx hx2
      rw [List.mem_singleton] at hx2
      obtain ⟨d, hd, rfl⟩ := List.mem_map.mp hx
      exact h.2 d hd hx2
    · rw [if_neg h]
      exact ih dm hw hn

/-- C9: the registry invariant: starting from the empty registry, every sequence of
`registerDevice` calls, successful or not, runs to its end and leaves a registry whose
actuators have pairwise distinct ids and whose device count is at most `MAX_DEVICES`
(10). -/
theorem registry_invariant {α : Type} (getId : α → Nat) (devices : List α) :
    ∃ dm, (DeviceManager.new : DeviceManager α).registerAll getId devices = some dm ∧
      (dm.registered.map getId).Nodup ∧
      dm.getDeviceCount ≤ MAX_DEVICES ∧ dm.registered.length = dm.getDeviceCount := by
  obtain ⟨dm, h, hw, hn⟩ := registerAll_invariant getId devices DeviceManager.new
    DeviceManager.new_wellFormed (by rw [DeviceManager.new_registered]; exact List.nodup_nil)
  exact ⟨dm, h, hn, hw.2.1, dm.registered_length hw⟩

/-- C10: for every registry state and id, `getDevice(id)` returns the first registered
actuator whose id equals `id`, and returns `nullptr` exactly when no registered actuator
has that id; immediately after a successful `registerDevice(a)`, `getDevice(a.id)` returns
`a` itself. -/
theorem getDevice_first_match {α : Type} (getId : α → Nat) (dm : DeviceManager α) (id : Nat)
    (hw : dm.WellFormed) :
    dm.getDevice getId id = some (dm.registered.find? (fun d => decide (getId d = id))) ∧
    (dm.getDevice getId id = some none ↔ ∀ d ∈ dm.registered, getId d ≠ id) ∧
    (∀ a dm1, dm.registerDevice getId a = some (true, dm1) →
      dm1.getDevice getId (getId a) = some (some a)) := by
  have hget : ∀ (dm : DeviceManager α), dm.WellFormed → ∀ id,
      dm.getDevice getId id = some (dm.registered.find? (fun d => decide (getId d = id))) := by
    intro dm hw id
    unfold DeviceManager.getDevice
    rw [getDeviceLoop_eq getId dm hw id dm.device_count_ 0 (by omega), List.drop_zero]
  refine ⟨hget dm hw id, ?_, ?_⟩
  · rw [hget dm hw id]
    simp only [Option.some.injEq, List.find?_eq_none, decide_eq_true_eq]
  · intro a dm1 h
    rw [registerDevice_eq getId dm hw a] at h
    by_cases hc : dm.device_count_ < MAX_DEVICES ∧ ∀ d ∈ dm.registered, getId d ≠ getId a
    · rw [if_pos hc] at h
      have hdm : dm1 = DeviceManager.mk (dm.devices_.set dm.device_count_ (some a))
          (dm.device_count_ + 1) := by
        have := Option.some.inj h
        exact (Prod.mk.inj this).2.symm
      obtain ⟨hw1, hr1⟩ := registerDevice_success dm hw a hc.1
      rw [hdm, hget _ hw1, hr1, List.find?_append]
      have hnone : dm.registered.find? (fun d => decide (getId d = getId a)) = none := by
        rw [List.find?_eq_none]
        intro d hd
        simpa using hc.2 d hd
      rw [hnone]
      simp
    · rw [if_neg hc] at h
      have := Option.some.inj h
      cases (Prod.mk.inj this).1

theorem getDevice_first_match_witness :
    (DeviceManager.mk (some 7 :: List.replicate 9 none) 1 : DeviceManager Nat).WellFormed ∧
    (DeviceManager.mk (some 7 :: List.replicate 9 none) 1 : DeviceManager Nat).getDevice id 7
      = some ((DeviceManager.mk (some 7 :: List.replicate 9 none) 1 :
          DeviceManager Nat).registered.find? (fun d => decide (id d = 7))) ∧
    ((DeviceManager.mk (some 7 :: List.replicate 9 none) 1 : DeviceManager Nat).getDevice id 7
        = some none ↔
      ∀ d ∈ (DeviceManager.mk (some 7 :: List.replicate 9 none) 1 :
          DeviceManager Nat).registered, id d ≠ 7) ∧
    (∀ a dm1, (DeviceManager.mk (some 7 :: List.replicate 9 none) 1 :
        DeviceManager Nat).registerDevice id a = some (true, dm1) →
      dm1.getDevice id (id a) = some (some a)) :=
  ⟨⟨by simp [MAX_DEVICES], by simp [MAX_DEVICES], by
      intro i hi
      have : i = 0 := by simp only at hi; omega
      subst this
      exact ⟨7, rfl⟩⟩,
   getDevice_first_match id _ 7
    ⟨by simp [MAX_DEVICES], by simp [MAX_DEVICES], by
      intro i hi
      have : i = 0 := by simp only at hi; omega
      subst this
      exact ⟨7, rfl⟩⟩⟩

/-! ## Dispatch through the registry -/

theorem getDevice_eq_find {α : Type} (getId : α → Nat) (dm : DeviceManager α)
    (hw : dm.WellFormed) (id : Nat) :
    dm.getDevice getId id = some (dm.registered.find? (fun d => decide (getId d = id))) := by
  unfold DeviceManager.getDevice
  rw [getDeviceLoop_eq getId dm hw id dm.device_count_ 0 (by omega), List.drop_zero]

/-- C11: for every registry state, id and args, `executeDeviceCommand(id, args)` returns
false and leaves every actuator, the servo bus and the USB port as they were when no
registered actuator has that id; otherwise its result and effects are exactly those of
`executeCommand(args)` on the registered actuator with that id: that servo and the servo
bus are as `executeCommand` leaves them, and every other actuator is untouched. -/
theorem executeDeviceCommand_dispatch {α : Type} [DecidableEq α] (dm : DeviceManager α)
    (id : Nat) (args : List Char) (w : World α) (hw : dm.WellFormed) :
    ((∀ d ∈ dm.registered, w.getId d ≠ id) →
      dm.executeDeviceCommand id args w = some (false, w)) ∧
    (∀ d, dm.registered.find? (fun d => decide (w.getId d = id)) = some d →
      dm.executeDeviceCommand id args w = w.executeCommand d args ∧
      (dm.executeDeviceCommand id args w = none ↔
        (w.servos d).executeCommand w.serial args = none) ∧
      ∀ r w1, dm.executeDeviceCommand id args w = some (r, w1) →
        (w.servos d).executeCommand w.serial args = some (r, w1.servos d, w1.serial) ∧
        w1.usb = w.usb ∧ ∀ q, q ≠ d → w1.servos q = w.servos q) := by
  have hget := getDevice_eq_find w.getId dm hw id
  constructor
  · intro hnone
    have hf : dm.registered.find? (fun d => decide (w.getId d = id)) = none := by
      rw [List.find?_eq_none]
      intro d hd
      simpa using hnone d hd
    unfold DeviceManager.executeDeviceCommand
    rw [hget, hf]
  · intro d hd
    have hex : dm.executeDeviceCommand id args w = w.executeCommand d args := by
      unfold DeviceManager.executeDeviceCommand
      rw [hget, hd]
    refine ⟨hex, ?_, ?_⟩
    · rw [hex]
      unfold World.executeCommand
      cases h : (w.servos d).executeCommand w.serial args with
      | none => simp
      | some r => simp
    · intro r w1 h
      rw [hex] at h
      unfold World.executeCommand at h
      cases h2 : (w.servos d).executeCommand w.serial args with
      | none => rw [h2] at h; cases h
      | some res =>
        obtain ⟨r2, s1, serial1⟩ := res
        rw [h2] at h
        simp only [Option.some.injEq, Prod.mk.injEq] at h
        obtain ⟨hr, hw1⟩ := h
        subst hr
        subst hw1
        refine ⟨by simp, rfl, ?_⟩
        intro q hq
        simp [Function.update_noteq hq]

theorem executeDeviceCommand_dispatch_witness :
    (DeviceManager.mk (some 7 :: List.replicate 9 none) 1 : DeviceManager Nat).WellFormed ∧
    ((∀ d ∈ (DeviceManager.mk (some 7 :: List.replicate 9 none) 1 :
          DeviceManager Nat).registered,
        (World.mk (fun p => HiWonderServo.new p) [] [] : World Nat).getId d ≠ 7) →
      (DeviceManager.mk (some 7 :: List.replicate 9 none) 1 :
        DeviceManager Nat).executeDeviceCommand 7 "load".toList
          (World.mk (fun p => HiWonderServo.new p) [] [])
        = some (false, World.mk (fun p => HiWonderServo.new p) [] [])) ∧
    (∀ d, (DeviceManager.mk (some 7 :: List.replicate 9 none) 1 :
          DeviceManager Nat).registered.find?
          (fun d => decide ((World.mk (fun p => HiWonderServo.new p) [] [] :
            World Nat).getId d = 7)) = some d →
      (DeviceManager.mk (some 7 :: List.replicate 9 none) 1 :
        DeviceManager Nat).executeDeviceCommand 7 "load".toList
          (World.mk (fun p => HiWonderServo.new p) [] [])
        = (World.mk (fun p => HiWonderServo.new p) [] [] : World Nat).executeCommand d
            "load".toList ∧
      ((DeviceManager.mk (some 7 :: List.replicate 9 none) 1 :
        DeviceManager Nat).executeDeviceCommand 7 "load".toList
          (World.mk (fun p => HiWonderServo.new p) [] []) = none ↔
        ((World.mk (fun p => HiWonderServo.new p) [] [] : World Nat).servos d).executeCommand
          (World.mk (fun p => HiWonderServo.new p) [] [] : World Nat).serial "load".toList
          = none) ∧
      ∀ r w1, (DeviceManager.mk (some 7 :: List.replicate 9 none) 1 :
        DeviceManager Nat).executeDeviceCommand 7 "load".toList
          (World.mk (fun p => HiWonderServo.new p) [] []) = some (r, w1) →
        ((World.mk (fun p => HiWonderServo.new p) [] [] : World Nat).servos d).executeCommand
          (World.mk (fun p => HiWonderServo.new p) [] [] : World Nat).serial "load".toList
          = some (r, w1.servos d, w1.serial) ∧
        w1.usb = (World.mk (fun p => HiWonderServo.new p) [] [] : World Nat).usb ∧
        ∀ q, q ≠ d →
          w1.servos q = (World.mk (fun p => HiWonderServo.new p) [] [] : World Nat).servos q) :=
  ⟨⟨by simp [MAX_DEVICES], by simp [MAX_DEVICES], by
      intro i hi
      have : i = 0 := by simp only at hi; omega
      subst this
      exact ⟨7, rfl⟩⟩,
   executeDeviceCommand_dispatch _ 7 "load".toList _
    ⟨by simp [MAX_DEVICES], by simp [MAX_DEVICES], by
      intro i hi
      have : i = 0 := by simp only at hi; omega
      subst this
      exact ⟨7, rfl⟩⟩⟩

theorem World.stop_eq {α : Type} [DecidableEq α] (w : World α) (d : α) :
    w.stop d = some (w.afterStop d) := by
  unfold World.stop HiWonderServo.stop
  rw [sendFrame_eq w.serial _ _ [] (by simp)]
  simp only [World.afterStop, CMD_MOVE_STOP, List.length_nil, List.sum_nil, List.append_nil,
    Nat.zero_add, Nat.add_zero]
  have e : (65535 - ((w.servos d).id_ + 3 + 12) % 65536) % 256
      = 255 - ((w.servos d).id_ + 3 + 12) % 256 := by omega
  rw [e]
  rfl

theorem stopAllLoop_eq {α : Type} [DecidableEq α] (dm : DeviceManager α)
    (hw : dm.WellFormed) : ∀ n i (w : World α), i + n = dm.device_count_ →
    stopAllLoop dm n i w = some ((dm.registered.drop i).foldl World.afterStop w) := by
  intro n
  induction n with
  | zero =>
    intro i w hi
    rw [List.drop_of_length_le (by rw [dm.registered_length hw]; omega)]
    rfl
  | succ n ih =>
    intro i w hi
    have hlt : i < dm.registered.length := by rw [dm.registered_length hw]; omega
    have hd := dm.deref_eq hw i (by omega)
    rw [List.getElem?_eq_getElem hlt] at hd
    rw [List.drop_eq_getElem_cons hlt, List.foldl_cons]
    simp only [stopAllLoop, hd, World.stop_eq]
    exact ih (i + 1) _ (by omega)

theorem afterStop_id {α : Type} [DecidableEq α] (w : World α) (d q : α) :
    ((w.afterStop d).servos q).id_ = (w.servos q).id_ := by
  unfold World.afterStop
  by_cases h : q = d
  · subst h; simp
  · simp [Function.update_noteq h]

theorem foldl_afterStop_id {α : Type} [DecidableEq α] (l : List α) : ∀ (w : World α) (q : α),
    ((l.foldl World.afterStop w).servos q).id_ = (w.servos q).id_ := by
  induction l with
  | nil => intro w q; rfl
  | cons d l ih => intro w q; rw [List.foldl_cons, ih, afterStop_id]

theorem foldl_afterStop_serial {α : Type} [DecidableEq α] (l : List α) : ∀ (w : World α),
    (l.foldl World.afterStop w).serial
      = w.serial ++ l.map (fun d => [0x55, 0x55, (w.servos d).id_, 3, 0x0C,
          255 - ((w.servos d).id_ + 3 + 0x0C) % 256]) ∧
    (l.foldl World.afterStop w).usb = w.usb := by
  induction l with
  | nil => intro w; simp
  | cons d l ih =>
    intro w
    rw [List.foldl_cons]
    obtain ⟨h1, h2⟩ := ih (w.afterStop d)
    refine ⟨?_, by rw [h2]; rfl⟩
    rw [h1]
    simp only [afterStop_id, List.map_cons]
    simp [World.afterStop]

theorem foldl_afterStop_idle {α : Type} [DecidableEq α] (l : List α) : ∀ (w : World α) (q : α),
    (w.servos q).state_ = State.IDLE ∨ q ∈ l →
    ((l.foldl World.afterStop w).servos q).state_ = State.IDLE := by
  induction l with
  | nil =>
    intro w q h
    rcases h with h | h
    · exact h
    · cases h
  | cons d l ih =>
    intro w q h
    rw [List.foldl_cons]
    apply ih
    by_cases hqd : q = d
    · left; subst hqd; simp [World.afterStop]
    · rcases h with h | h
      · left; simpa [World.afterStop, Function.update_noteq hqd] using h
      · right
        rcases List.mem_cons.mp h with h1 | h1
        · exact absurd h1 hqd
        · exact h1

theorem foldl_afterStop_other {α : Type} [DecidableEq α] (l : List α) : ∀ (w : World α) (q : α),
    q ∉ l → (l.foldl World.afterStop w).servos q = w.servos q := by
  induction l with
  | nil => intro w q _; rfl
  | cons d l ih =>
    intro w q h
    rw [List.foldl_cons, ih _ q (fun hq => h (List.mem_cons_of_mem _ hq))]
    have : q ≠ d := fun e => h (by rw [e]; exact List.mem_cons_self _ _)
    simp [World.afterStop, Function.update_noteq this]

/-- C12: for every registry state, processing the line `STOP_ALL` returns success and runs
`stop()` once on each registered actuator, in registration order: the servo bus receives
exactly one move-stop frame (command `0x0C`, no payload) per registered servo, in that
order, every registered servo is in state Idle afterwards, and nothing else changes. -/
theorem parseAndExecute_stop_all {α : Type} [DecidableEq α] (dm : DeviceManager α)
    (cmd_str : List Char) (w : World α) (hw : dm.WellFormed)
    (hline : cStringFrom (cmd_str.take BUFFER_SIZE) = some "STOP_ALL".toList) :
    ∃ w1, CommandParser.parseAndExecute dm cmd_str w = some (true, w1) ∧
      w1 = dm.registered.foldl World.afterStop w ∧
      w1.serial = w.serial ++ dm.registered.map (fun d =>
        [0x55, 0x55, (w.servos d).id_, 3, 0x0C, 255 - ((w.servos d).id_ + 3 + 0x0C) % 256]) ∧
      (∀ d ∈ dm.registered, (w1.servos d).state_ = State.IDLE) ∧
      (∀ q, q ∉ dm.registered → w1.servos q = w.servos q) ∧
      (∀ q, (w1.servos q).id_ = (w.servos q).id_) ∧
      w1.usb = w.usb := by
  have hrun : CommandParser.parseAndExecute dm cmd_str w
      = some (true, dm.registered.foldl World.afterStop w) := by
    unfold CommandParser.parseAndExecute
    rw [hline]
    simp only []
    rw [if_neg (by decide), if_pos trivial]
    unfold DeviceManager.stopAll
    rw [stopAllLoop_eq dm hw dm.device_count_ 0 w (by omega), List.drop_zero]
  refine ⟨_, hrun, rfl, (foldl_afterStop_serial _ w).1, ?_, ?_, ?_, (foldl_afterStop_serial _ w).2⟩
  · intro d hd
    exact foldl_afterStop_idle _ w d (Or.inr hd)
  · intro q hq
    exact foldl_afterStop_other _ w q hq
  · intro q
    exact foldl_afterStop_id _ w q

theorem parseAndExecute_stop_all_witness :
    (DeviceManager.mk (some 7 :: List.replicate 9 none) 1 : DeviceManager Nat).WellFormed ∧
    cStringFrom ((lineBuffer "STOP_ALL".toList []).take BUFFER_SIZE)
      = some "STOP_ALL".toList ∧
    ∃ w1, CommandParser.parseAndExecute
        (DeviceManager.mk (some 7 :: List.replicate 9 none) 1 : DeviceManager Nat)
        (lineBuffer "STOP_ALL".toList [])
        (World.mk (fun p => HiWonderServo.new p) [] []) = some (true, w1) ∧
      w1 = (DeviceManager.mk (some 7 :: List.replicate 9 none) 1 :
          DeviceManager Nat).registered.foldl World.afterStop
            (World.mk (fun p => HiWonderServo.new p) [] []) ∧
      w1.serial = (World.mk (fun p => HiWonderServo.new p) [] [] : World Nat).serial
        ++ (DeviceManager.mk (some 7 :: List.replicate 9 none) 1 :
          DeviceManager Nat).registered.map (fun d =>
            [0x55, 0x55,
              ((World.mk (fun p => HiWonderServo.new p) [] [] : World Nat).servos d).id_,
              3, 0x0C,
              255 - (((World.mk (fun p => HiWonderServo.new p) [] [] :
                World Nat).servos d).id_ + 3 + 0x0C) % 256]) ∧
      (∀ d ∈ (DeviceManager.mk (some 7 :: List.replicate 9 none) 1 :
          DeviceManager Nat).registered, (w1.servos d).state_ = State.IDLE) ∧
      (∀ q, q ∉ (DeviceManager.mk (some 7 :: List.replicate 9 none) 1 :
          DeviceManager Nat).registered →
        w1.servos q = (World.mk (fun p => HiWonderServo.new p) [] [] : World Nat).servos q) ∧
      (∀ q, (w1.servos q).id_
        = ((World.mk (fun p => HiWonderServo.new p) [] [] : World Nat).servos q).id_) ∧
      w1.usb = (World.mk (fun p => HiWonderServo.new p) [] [] : World Nat).usb :=
  ⟨⟨by simp [MAX_DEVICES], by simp [MAX_DEVICES], by
      intro i hi
      have : i = 0 := by simp only at hi; omega
      subst this
      exact ⟨7, rfl⟩⟩,
   by decide,
   parseAndExecute_stop_all _ _ _
    ⟨by simp [MAX_DEVICES], by simp [MAX_DEVICES], by
      intro i hi
      have : i = 0 := by simp only at hi; omega
      subst this
      exact ⟨7, rfl⟩⟩
    (by decide)⟩

/-! ## Commands that the servo does not recognise, and the limits of the servo -/

/-- C19, against the claim as stated: `setAngleLimits(10, 5)` and
`setPositionLimits(1000, 0)` on a freshly constructed servo store their arguments as they
are, and the configuration invariant no longer holds. -/
theorem setLimits_break_invariant :
    (HiWonderServo.new 1).ValidConfig ∧
    ¬ ((HiWonderServo.new 1).setAngleLimits 10 5).ValidConfig ∧
    ¬ ((HiWonderServo.new 1).setPositionLimits 1000 0).ValidConfig := by
  refine ⟨?_, ?_, ?_⟩
  · norm_num [HiWonderServo.ValidConfig, HiWonderServo.new]
  · norm_num [HiWonderServo.ValidConfig, HiWonderServo.new, HiWonderServo.setAngleLimits]
  · norm_num [HiWonderServo.ValidConfig, HiWonderServo.new, HiWonderServo.setPositionLimits]

theorem executeCommand_limits (s : HiWonderServo) (serial : Serial) (command : List Char)
    (r : Bool) (s1 : HiWonderServo) (serial1 : Serial)
    (h : s.executeCommand serial command = some (r, s1, serial1)) :
    s1.min_angle_ = s.min_angle_ ∧ s1.max_angle_ = s.max_angle_ ∧
    s1.min_pos_ = s.min_pos_ ∧ s1.max_pos_ = s.max_pos_ ∧ s1.id_ = s.id_ := by
  unfold HiWonderServo.executeCommand at h
  cases hs : sscanfAngleTime command 0 500 with
  | none => rw [hs] at h; cases h
  | some res =>
    obtain ⟨n, a, t⟩ := res
    rw [hs] at h
    simp only [] at h
    split_ifs at h
    · cases hm : s.moveAngle serial a t with
      | none => rw [hm] at h; cases h
      | some x =>
        rw [hm] at h
        simp only [Option.some.injEq, Prod.mk.injEq] at h
        obtain ⟨-, h2, -⟩ := h
        subst h2
        exact ⟨rfl, rfl, rfl, rfl, rfl⟩
    · cases hm : s.load serial with
      | none => rw [hm] at h; cases h
      | some x =>
        rw [hm] at h
        simp only [Option.some.injEq, Prod.mk.injEq] at h
        obtain ⟨-, h2, -⟩ := h
        subst h2
        exact ⟨rfl, rfl, rfl, rfl, rfl⟩
    · cases hm : s.unload serial with
      | none => rw [hm] at h; cases h
      | some x =>
        rw [hm] at h
        simp only [Option.some.injEq, Prod.mk.injEq] at h
        obtain ⟨-, h2, -⟩ := h
        subst h2
        exact ⟨rfl, rfl, rfl, rfl, rfl⟩
    · simp only [Option.some.injEq, Prod.mk.injEq] at h
      obtain ⟨-, h2, -⟩ := h
      subst h2
      exact ⟨rfl, rfl, rfl, rfl, rfl⟩

/-- C19, as the code has it: the configuration invariant `min_angle < max_angle` and
`min_pos < max_pos` holds for a freshly constructed servo and is preserved by `stop`,
`executeCommand`, `update` and `setCenter` (`move`, `moveAngle`, `load` and `unload` change
no member of the servo); `setAngleLimits(a, b)` and `setPositionLimits(a, b)` store their
arguments unchecked, so they preserve it exactly when `a < b`. -/
theorem validConfig_preserved (s : HiWonderServo) (hv : s.ValidConfig) :
    (∀ id, (HiWonderServo.new id).ValidConfig) ∧
    (∀ serial, ∃ s1 serial1, s.stop serial = some (s1, serial1) ∧ s1.ValidConfig) ∧
    (∀ serial command r s1 serial1,
      s.executeCommand serial command = some (r, s1, serial1) → s1.ValidConfig) ∧
    s.update.ValidConfig ∧
    (∀ c, (s.setCenter c).ValidConfig) ∧
    (∀ a b, (s.setAngleLimits a b).ValidConfig ↔ a < b) ∧
    (∀ a b, (s.setPositionLimits a b).ValidConfig ↔ a < b) := by
  refine ⟨?_, ?_, ?_, hv, fun c => hv, ?_, ?_⟩
  · intro id
    norm_num [HiWonderServo.ValidConfig, HiWonderServo.new]
  · intro serial
    unfold HiWonderServo.stop
    rw [sendFrame_eq serial _ _ [] (by simp)]
    exact ⟨_, _, rfl, hv⟩
  · intro serial command r s1 serial1 h
    obtain ⟨h1, h2, h3, h4, -⟩ := executeCommand_limits s serial command r s1 serial1 h
    unfold HiWonderServo.ValidConfig
    rw [h1, h2, h3, h4]
    exact hv
  · intro a b
    simp only [HiWonderServo.ValidConfig, HiWonderServo.setAngleLimits]
    exact ⟨fun h => h.1, fun h => ⟨h, hv.2⟩⟩
  · intro a b
    simp only [HiWonderServo.ValidConfig, HiWonderServo.setPositionLimits]
    exact ⟨fun h => h.2, fun h => ⟨hv.1, h⟩⟩

theorem validConfig_preserved_witness :
    (HiWonderServo.new 1).ValidConfig ∧
    (∀ id, (HiWonderServo.new id).ValidConfig) ∧
    (∀ serial, ∃ s1 serial1, (HiWonderServo.new 1).stop serial = some (s1, serial1) ∧
      s1.ValidConfig) ∧
    (∀ serial command r s1 serial1,
      (HiWonderServo.new 1).executeCommand serial command = some (r, s1, serial1) →
      s1.ValidConfig) ∧
    (HiWonderServo.new 1).update.ValidConfig ∧
    (∀ c, ((HiWonderServo.new 1).setCenter c).ValidConfig) ∧
    (∀ a b, ((HiWonderServo.new 1).setAngleLimits a b).ValidConfig ↔ a < b) ∧
    (∀ a b, ((HiWonderServo.new 1).setPositionLimits a b).ValidConfig ↔ a < b) :=
  ⟨by norm_num [HiWonderServo.ValidConfig, HiWonderServo.new],
   validConfig_preserved (HiWonderServo.new 1)
     (by norm_num [HiWonderServo.ValidConfig, HiWonderServo.new])⟩

/-! ## The line assembler -/

theorem segmentsFrom_nil (cur : List Char) : segmentsFrom cur [] = [cur] := by
  simp [segmentsFrom, segments]

theorem segmentsFrom_cons (cur : List Char) (c : Char) (cs : List Char) :
    segmentsFrom cur (c :: cs)
      = if isTerminator c = true then cur :: segmentsFrom [] cs
        else segmentsFrom (cur ++ [c]) cs := by
  unfold segmentsFrom segments
  rw [List.splitOnP_cons]
  by_cases h : isTerminator c = true
  · simp only [h, if_true, List.modifyHead_cons, List.append_nil]
    congr 1
    have : (fun s : List Char => [] ++ s) = id := by funext s; simp
    rw [this, List.modifyHead_id]; rfl
  · simp only [h, if_false, Bool.false_eq_true, List.modifyHead_modifyHead]
    congr 1
    funext s
    simp

theorem segmentsFrom_ne_nil (cur bytes : List Char) : segmentsFrom cur bytes ≠ [] := by
  unfold segmentsFrom segments
  simp [List.splitOnP_ne_nil]

theorem segmentsFrom_empty (bytes : List Char) : segmentsFrom [] bytes = segments bytes := by
  unfold segmentsFrom
  have : (fun s : List Char => [] ++ s) = id := by funext s; simp
  rw [this, List.modifyHead_id]; rfl

theorem isTerminator_iff (c : Char) :
    (c = Char.ofNat 10 ∨ c = Char.ofNat 13) ↔ isTerminator c = true := by
  simp [isTerminator]

/-- The C string read from cells that hold `s`, a null character and then anything. -/
theorem cStringFrom_append (s rest : List Char) :
    cStringFrom (s ++ NUL :: rest) = some (cText s) := by
  induction s with
  | nil => simp [cStringFrom, cText]
  | cons c s ih =>
    by_cases h : c = NUL
    · simp [cStringFrom, cText, h]
    · simp [cStringFrom, cText, h, ih]

theorem CommandParser.Holds.push {p : CommandParser} {cur : List Char} (h : p.Holds cur)
    (c : Char) (hlt : p.buffer_pos_ < BUFFER_SIZE - 1) :
    p.buffer_pos_ < p.command_buffer_.length ∧
    CommandParser.Holds
      { p with command_buffer_ := p.command_buffer_.set p.buffer_pos_ c,
               buffer_pos_ := p.buffer_pos_ + 1 } (cur ++ [c]) := by
  obtain ⟨hlen, hpos, htake⟩ := h
  unfold BUFFER_SIZE at hlt hlen
  have hcur : cur.length < 255 := by omega
  have hp : p.buffer_pos_ = cur.length := by omega
  have hin : p.buffer_pos_ < p.command_buffer_.length := by omega
  refine ⟨hin, ?_, ?_, ?_⟩
  · simp [hlen, BUFFER_SIZE]
  · simp only [List.length_append, List.length_singleton]; omega
  · simp only
    rw [List.take_succ, List.getElem?_set_self hin]
    have htk : (p.command_buffer_.set p.buffer_pos_ c).take p.buffer_pos_
        = p.command_buffer_.take p.buffer_pos_ := by
      rw [List.set_take, List.set_eq_of_length_le (by rw [List.length_take]; omega)]
    rw [htk, htake, List.take_of_length_le (by omega),
      List.take_of_length_le (by simp only [List.length_append, List.length_singleton]; omega)]
    rfl

theorem CommandParser.Holds.full {p : CommandParser} {cur : List Char} (h : p.Holds cur)
    (c : Char) (hlt : ¬ p.buffer_pos_ < BUFFER_SIZE - 1) : p.Holds (cur ++ [c]) := by
  obtain ⟨hlen, hpos, htake⟩ := h
  unfold BUFFER_SIZE at hlt
  have hcur : 255 ≤ cur.length := by omega
  refine ⟨hlen, ?_, ?_⟩
  · simp only [List.length_append, List.length_singleton]; omega
  · rw [htake, List.take_append_of_le_length hcur]

theorem CommandParser.Holds.dispatch {p : CommandParser} {cur : List Char} (h : p.Holds cur)
    (hpos : 0 < p.buffer_pos_) (r : Bool) :
    cur ≠ [] ∧ p.buffer_pos_ < p.command_buffer_.length ∧
    (∃ rest, p.command_buffer_.set p.buffer_pos_ NUL = cur.take 255 ++ NUL :: rest) ∧
    CommandParser.Holds
      { command_buffer_ := p.command_buffer_.set p.buffer_pos_ NUL, buffer_pos_ := 0,
        last_result_ := r } [] := by
  obtain ⟨hlen, hp, htake⟩ := h
  unfold BUFFER_SIZE at hlen
  have hin : p.buffer_pos_ < p.command_buffer_.length := by omega
  refine ⟨?_, hin, ?_, ?_, ?_, ?_⟩
  · intro e; rw [e] at hp; simp at hp; omega
  · refine ⟨p.command_buffer_.drop (p.buffer_pos_ + 1), ?_⟩
    rw [List.set_eq_take_append_cons_drop, if_pos hin, htake]
  · simp [hlen, BUFFER_SIZE]
  · simp
  · simp

/-- What `update` dispatches and what it keeps, when the dispatch records the command
texts: the first 255 bytes, read as C strings, of the finished segments that are not
empty, in order; the parser is left holding the unfinished last segment. -/
theorem updateLoop_record (bytes : List Char) : ∀ (cur : List Char) (p : CommandParser)
    (log : List (List Char)), p.Holds cur →
    ∃ p1, updateLoop recordCommand p log bytes
        = some (p1, log ++ (((segmentsFrom cur bytes).dropLast.filter
            (fun s => decide (s ≠ []))).map (fun s => cText (s.take 255)))) ∧
      p1.Holds (((segmentsFrom cur bytes).getLast?).getD []) := by
  induction bytes with
  | nil =>
    intro cur p log h
    refine ⟨p, ?_, ?_⟩
    · simp [updateLoop, segmentsFrom_nil]
    · simpa [segmentsFrom_nil] using h
  | cons c cs ih =>
    intro cur p log h
    rw [segmentsFrom_cons]
    by_cases hc : isTerminator c = true
    · have hc2 : c = Char.ofNat 10 ∨ c = Char.ofNat 13 := (isTerminator_iff c).mpr hc
      have hL := segmentsFrom_ne_nil [] cs
      simp only [hc, if_true]
      have hlast : (cur :: segmentsFrom [] cs).getLast? = (segmentsFrom [] cs).getLast? := by
        obtain ⟨x, xs, hx⟩ := List.exists_cons_of_ne_nil hL
        rw [hx, List.getLast?_cons_cons]
      rw [List.dropLast_cons_of_ne_nil hL, hlast]
      by_cases hpos : 0 < p.buffer_pos_
      · obtain ⟨hne, hin, ⟨rest, hbuf⟩, hh⟩ := h.dispatch hpos true
        obtain ⟨p1, h1, h2⟩ := ih [] _ (log ++ [cText (cur.take 255)]) hh
        refine ⟨p1, ?_, h2⟩
        have hrec : recordCommand (p.command_buffer_.set p.buffer_pos_ NUL) log
            = some (true, log ++ [cText (cur.take 255)]) := by
          unfold recordCommand
          rw [hbuf, cStringFrom_append]
        simp only [updateLoop, hc2, if_true, hpos, hin, hrec, h1]
        simp [List.filter_cons, hne]
      · have hp0 : p.buffer_pos_ = 0 := by omega
        have hcur : cur = [] := by
          have := h.2.1
          rw [hp0] at this
          by_contra hne
          have : 0 < cur.length := List.length_pos.mpr hne
          omega
        subst hcur
        obtain ⟨p1, h1, h2⟩ := ih [] p log h
        refine ⟨p1, ?_, h2⟩
        simp only [updateLoop, hc2, if_true, hpos, if_false, h1]
        simp [List.filter_cons]
    · have hc2 : ¬ (c = Char.ofNat 10 ∨ c = Char.ofNat 13) :=
        fun e => hc ((isTerminator_iff c).mp e)
      simp only [hc, if_false, Bool.false_eq_true]
      by_cases hlt : p.buffer_pos_ < BUFFER_SIZE - 1
      · obtain ⟨hin, hh⟩ := h.push c hlt
        obtain ⟨p1, h1, h2⟩ := ih (cur ++ [c]) _ log hh
        refine ⟨p1, ?_, h2⟩
        rw [← h1]
        simp only [updateLoop, hc2, if_false, hlt, if_true, hin]
      · obtain ⟨p1, h1, h2⟩ := ih (cur ++ [c]) p log (h.full c hlt)
        refine ⟨p1, ?_, h2⟩
        rw [← h1]
        simp only [updateLoop, hc2, if_false, hlt]

theorem dispatched_nil (cur : List Char) : dispatched cur [] = [] := by
  simp [dispatched, segmentsFrom_nil]

theorem unfinished_nil (cur : List Char) : unfinished cur [] = cur := by
  simp [unfinished, segmentsFrom_nil]

theorem dispatched_cons (cur : List Char) (c : Char) (cs : List Char) :
    dispatched cur (c :: cs)
      = if isTerminator c = true then
          (if cur = [] then [] else [cText (cur.take 255)]) ++ dispatched [] cs
        else dispatched (cur ++ [c]) cs := by
  unfold dispatched
  rw [segmentsFrom_cons]
  by_cases hc : isTerminator c = true
  · simp only [hc, if_true]
    rw [List.dropLast_cons_of_ne_nil (segmentsFrom_ne_nil [] cs)]
    by_cases hne : cur = []
    · simp [List.filter_cons, hne]
    · simp [List.filter_cons, hne]
  · simp only [hc, if_false, Bool.false_eq_true]

theorem unfinished_cons (cur : List Char) (c : Char) (cs : List Char) :
    unfinished cur (c :: cs)
      = if isTerminator c = true then unfinished [] cs else unfinished (cur ++ [c]) cs := by
  unfold unfinished
  rw [segmentsFrom_cons]
  by_cases hc : isTerminator c = true
  · simp only [hc, if_true]
    obtain ⟨x, xs, hx⟩ := List.exists_cons_of_ne_nil (segmentsFrom_ne_nil [] cs)
    rw [hx, List.getLast?_cons_cons]
  · simp only [hc, if_false, Bool.false_eq_true]

/-- Running `update` with a dispatch that is observed: the run is the run with the
dispatch itself, and the texts recorded are the first 255 bytes, read as C strings, of the
finished segments that are not empty, in order. -/
theorem updateLoop_observe {W : Type} (dispatch : List Char → W → Option (Bool × W))
    (bytes : List Char) : ∀ (cur : List Char) (p : CommandParser) (w : W)
    (log : List (List Char)), p.Holds cur →
    updateLoop (observe dispatch) p (w, log) bytes
        = (updateLoop dispatch p w bytes).map
            (fun r => (r.1, (r.2, log ++ dispatched cur bytes))) ∧
    ∀ p1 w1, updateLoop dispatch p w bytes = some (p1, w1) →
      p1.Holds (unfinished cur bytes) := by
  induction bytes with
  | nil =>
    intro cur p w log h
    simp only [updateLoop, dispatched_nil, unfinished_nil, Option.map_some', List.append_nil,
      true_and]
    intro p1 w1 e
    simp only [Option.some.injEq, Prod.mk.injEq] at e
    rw [← e.1]; exact h
  | cons c cs ih =>
    intro cur p w log h
    rw [dispatched_cons, unfinished_cons]
    by_cases hc : isTerminator c = true
    · have hc2 : c = Char.ofNat 10 ∨ c = Char.ofNat 13 := (isTerminator_iff c).mpr hc
      simp only [hc, if_true]
      by_cases hpos : 0 < p.buffer_pos_
      · obtain ⟨hne, hin, ⟨rest, hbuf⟩, -⟩ := h.dispatch hpos true
        simp only [updateLoop, hc2, if_true, hpos, hin, if_neg hne]
        cases hd : dispatch (p.command_buffer_.set p.buffer_pos_ NUL) w with
        | none => simp [observe, hd]
        | some res =>
          obtain ⟨r, w1⟩ := res
          have hh := (h.dispatch hpos r).2.2.2
          obtain ⟨h1, h2⟩ := ih [] _ w1 (log ++ [cText (cur.take 255)]) hh
          have hobs : observe dispatch (p.command_buffer_.set p.buffer_pos_ NUL) (w, log)
              = some (r, (w1, log ++ [cText (cur.take 255)])) := by
            unfold observe
            simp only [hd]
            rw [hbuf, cStringFrom_append]
            rfl
          simp only [hobs, h1, List.append_assoc]
          exact ⟨trivial, h2⟩
      · have hp0 : p.buffer_pos_ = 0 := by omega
        have hcur : cur = [] := by
          have := h.2.1
          rw [hp0] at this
          by_contra hne
          have : 0 < cur.length := List.length_pos.mpr hne
          omega
        subst hcur
        obtain ⟨h1, h2⟩ := ih [] p w log h
        simp only [updateLoop, hc2, if_true, hpos, if_false, h1, List.nil_append]
        exact ⟨trivial, h2⟩
    · have hc2 : ¬ (c = Char.ofNat 10 ∨ c = Char.ofNat 13) :=
        fun e => hc ((isTerminator_iff c).mp e)
      simp only [hc, if_false, Bool.false_eq_true]
      by_cases hlt : p.buffer_pos_ < BUFFER_SIZE - 1
      · obtain ⟨hin, hh⟩ := h.push c hlt
        obtain ⟨h1, h2⟩ := ih (cur ++ [c]) _ w log hh
        simp only [updateLoop, hc2, if_false, hlt, if_true, hin, h1]
        exact ⟨trivial, h2⟩
      · obtain ⟨h1, h2⟩ := ih (cur ++ [c]) p w log (h.full c hlt)
        simp only [updateLoop, hc2, if_false, hlt, h1]
        exact ⟨trivial, h2⟩

theorem updateLoop_append {W : Type} (dispatch : List Char → W → Option (Bool × W))
    (xs ys : List Char) : ∀ (p : CommandParser) (w : W),
    updateLoop dispatch p w (xs ++ ys)
      = match updateLoop dispatch p w xs with
        | some (p1, w1) => updateLoop dispatch p1 w1 ys
        | none => none := by
  induction xs with
  | nil => intro p w; simp [updateLoop]
  | cons c cs ih =>
    intro p w
    simp only [List.cons_append, updateLoop]
    split_ifs
    · cases hd : dispatch (p.command_buffer_.set p.buffer_pos_ NUL) w with
      | none => rfl
      | some res => obtain ⟨r, w1⟩ := res; exact ih _ _
    · rfl
    · exact ih _ _
    · exact ih _ _
    · rfl
    · exact ih _ _

/-- Bytes that are not terminators are only accumulated: nothing is dispatched. -/
theorem updateLoop_plain {W : Type} (dispatch : List Char → W → Option (Bool × W))
    (pre : List Char) (hpre : ∀ c ∈ pre, isTerminator c = false) :
    ∀ (cur : List Char) (p : CommandParser) (w : W), p.Holds cur →
    ∃ q, updateLoop dispatch p w pre = some (q, w) ∧ q.Holds (cur ++ pre) ∧
      q.last_result_ = p.last_result_ := by
  induction pre with
  | nil => intro cur p w h; exact ⟨p, rfl, by simpa using h, rfl⟩
  | cons c cs ih =>
    intro cur p w h
    have hc : isTerminator c = false := hpre c (List.mem_cons_self _ _)
    have hc2 : ¬ (c = Char.ofNat 10 ∨ c = Char.ofNat 13) := by
      intro e; rw [(isTerminator_iff c).mp e] at hc; cases hc
    have hcs : ∀ c ∈ cs, isTerminator c = false := fun x hx => hpre x (List.mem_cons_of_mem _ hx)
    have e : cur ++ c :: cs = (cur ++ [c]) ++ cs := by simp
    by_cases hlt : p.buffer_pos_ < BUFFER_SIZE - 1
    · obtain ⟨hin, hh⟩ := h.push c hlt
      obtain ⟨q, h1, h2, h3⟩ := ih hcs (cur ++ [c]) _ w hh
      refine ⟨q, ?_, by rw [e]; exact h2, h3⟩
      simp only [updateLoop, hc2, if_false, hlt, if_true, hin, h1]
    · obtain ⟨q, h1, h2, h3⟩ := ih hcs (cur ++ [c]) p w (h.full c hlt)
      refine ⟨q, ?_, by rw [e]; exact h2, h3⟩
      simp only [updateLoop, hc2, if_false, hlt, h1]

/-- A line that a terminator ends is dispatched once, as the cells that hold its first 255
bytes and a null character; the parser goes on with an empty buffer. -/
theorem updateLoop_line {W : Type} (dispatch : List Char → W → Option (Bool × W))
    (line : List Char) (hline : ∀ c ∈ line, isTerminator c = false) (hne : line ≠ [])
    (t : Char) (ht : isTerminator t = true) (more : List Char)
    (p : CommandParser) (w : W) (hp : p.Holds []) :
    ∃ rest, (line.take 255 ++ NUL :: rest).length = BUFFER_SIZE ∧
      (∀ r, CommandParser.Holds
        { command_buffer_ := line.take 255 ++ NUL :: rest, buffer_pos_ := 0,
          last_result_ := r } []) ∧
      updateLoop dispatch p w (line ++ t :: more)
        = match dispatch (line.take 255 ++ NUL :: rest) w with
          | some (r, w1) =>
            updateLoop dispatch
              { command_buffer_ := line.take 255 ++ NUL :: rest, buffer_pos_ := 0,
                last_result_ := r } w1 more
          | none => none := by
  obtain ⟨q, h1, h2, -⟩ := updateLoop_plain dispatch line hline [] p w hp
  rw [List.nil_append] at h2
  have hpos : 0 < q.buffer_pos_ := by
    have := h2.2.1
    have : 0 < line.length := List.length_pos.mpr hne
    omega
  obtain ⟨-, hin, ⟨rest, hbuf⟩, -⟩ := h2.dispatch hpos true
  have ht2 : t = Char.ofNat 10 ∨ t = Char.ofNat 13 := (isTerminator_iff t).mpr ht
  refine ⟨rest, ?_, ?_, ?_⟩
  · rw [← hbuf, List.length_set]; exact h2.1
  · intro r
    have := (h2.dispatch hpos r).2.2.2
    rw [hbuf] at this
    exact this
  · rw [updateLoop_append, h1]
    simp only [updateLoop, ht2, if_true, hpos, hin, hbuf]

theorem CommandParser.holds_nil (p : CommandParser)
    (hlen : p.command_buffer_.length = BUFFER_SIZE) (hpos : p.buffer_pos_ = 0) :
    p.Holds [] :=
  ⟨hlen, by simp [hpos], by simp [hpos]⟩

theorem dispatched_line (line : List Char) (hline : ∀ c ∈ line, isTerminator c = false)
    (t : Char) (ht : isTerminator t = true) (more : List Char) : ∀ cur : List Char,
    dispatched cur (line ++ t :: more)
      = (if cur ++ line = [] then [] else [cText ((cur ++ line).take 255)])
          ++ dispatched [] more ∧
    unfinished cur (line ++ t :: more) = unfinished [] more := by
  induction line with
  | nil =>
    intro cur
    rw [List.nil_append, dispatched_cons, unfinished_cons]
    simp [ht]
  | cons c cs ih =>
    intro cur
    have hc : isTerminator c = false := hline c (List.mem_cons_self _ _)
    have := ih (fun x hx => hline x (List.mem_cons_of_mem _ hx)) (cur ++ [c])
    rw [List.cons_append, dispatched_cons, unfinished_cons]
    simp only [hc, Bool.false_eq_true, if_false]
    simpa using this

theorem segmentsFrom_line (line : List Char) (hline : ∀ c ∈ line, isTerminator c = false)
    (t : Char) (ht : isTerminator t = true) (more : List Char) : ∀ cur : List Char,
    segmentsFrom cur (line ++ t :: more) = (cur ++ line) :: segmentsFrom [] more := by
  induction line with
  | nil =>
    intro cur
    rw [List.nil_append, segmentsFrom_cons]
    simp [ht]
  | cons c cs ih =>
    intro cur
    have hc : isTerminator c = false := hline c (List.mem_cons_self _ _)
    have := ih (fun x hx => hline x (List.mem_cons_of_mem _ hx)) (cur ++ [c])
    rw [List.cons_append, segmentsFrom_cons]
    simp only [hc, Bool.false_eq_true, if_false]
    simpa using this

/-- C14, against the claim as stated: a segment of 256 bytes `a` followed by a line feed
is not dispatched as it is: the command dispatched is its first 255 bytes. -/
theorem update_truncates_segment :
    (segments (List.replicate 256 'a' ++ [Char.ofNat 10])).dropLast.filter
        (fun s => decide (s ≠ [])) = [List.replicate 256 'a'] ∧
    (updateLoop recordCommand CommandParser.new []
        (List.replicate 256 'a' ++ [Char.ofNat 10])).map (fun r => r.2)
      = some [List.replicate 255 'a'] := by
  have hline : ∀ c ∈ List.replicate 256 'a', isTerminator c = false := by
    intro c hc
    rw [List.eq_of_mem_replicate hc]
    decide
  have hLF : isTerminator (Char.ofNat 10) = true := by decide
  have htext : cText (List.replicate 255 'a') = List.replicate 255 'a' := by
    unfold cText
    rw [List.takeWhile_eq_self_iff]
    intro c hc
    rw [List.eq_of_mem_replicate hc]
    decide
  have hne : List.replicate 256 'a' ≠ [] :=
    List.ne_nil_of_length_pos (by rw [List.length_replicate]; decide)
  have hnew : CommandParser.new.Holds [] :=
    CommandParser.new.holds_nil (List.length_replicate _ _) rfl
  constructor
  · have h := segmentsFrom_line (List.replicate 256 'a') hline (Char.ofNat 10) hLF [] []
    rw [segmentsFrom_empty, segmentsFrom_nil, List.nil_append] at h
    rw [h]
    generalize List.replicate 256 'a' = L at hne
    simp [hne]
  · obtain ⟨p1, h1, -⟩ := updateLoop_record (List.replicate 256 'a' ++ [Char.ofNat 10]) []
      CommandParser.new [] hnew
    have h1b : updateLoop recordCommand CommandParser.new []
        (List.replicate 256 'a' ++ [Char.ofNat 10])
        = some (p1, [] ++ dispatched [] (List.replicate 256 'a' ++ [Char.ofNat 10])) := h1
    rw [h1b, (dispatched_line (List.replicate 256 'a') hline (Char.ofNat 10) hLF [] []).1,
      dispatched_nil]
    simp only [List.nil_append, if_neg hne, List.take_replicate, Option.map_some',
      List.append_nil]
    rw [show min 255 256 = 255 from rfl, htext]

/-- C14, as the code has it: for every input byte stream, `update` dispatches, in order and
once each, the non-empty segments obtained by splitting the stream at carriage-return and
line-feed bytes, each cut to its first 255 bytes and read as a C string; a terminator
arriving while the buffer is empty dispatches nothing and changes no state; after each
dispatch the buffer is empty; the bytes after the last terminator remain accumulated in
the buffer (its first 255 at most) for the next call. -/
theorem update_dispatches (p : CommandParser) (bytes : List Char)
    (hlen : p.command_buffer_.length = BUFFER_SIZE) (hpos : p.buffer_pos_ = 0) :
    (∃ p1, updateLoop recordCommand p [] bytes = some (p1, dispatched [] bytes) ∧
      p1.Holds (unfinished [] bytes)) ∧
    (∀ (α : Type) [DecidableEq α] (dm : DeviceManager α) (w : World α)
        (log : List (List Char)),
      updateLoop (observe (CommandParser.parseAndExecute dm)) p (w, log) bytes
        = (CommandParser.update dm p w bytes).map
            (fun r => (r.1, (r.2, log ++ dispatched [] bytes))) ∧
      ∀ p1 w1, CommandParser.update dm p w bytes = some (p1, w1) →
        p1.Holds (unfinished [] bytes)) ∧
    dispatched [] bytes
      = ((segments bytes).dropLast.filter (fun s => decide (s ≠ []))).map
          (fun s => cText (s.take 255)) ∧
    unfinished [] bytes = ((segments bytes).getLast?).getD [] ∧
    (∀ (W : Type) (dispatch : List Char → W → Option (Bool × W)) (w : W) (t : Char)
        (cs : List Char), isTerminator t = true →
      updateLoop dispatch p w (t :: cs) = updateLoop dispatch p w cs) ∧
    (∀ (W : Type) (dispatch : List Char → W → Option (Bool × W)) (q : CommandParser) (w : W)
        (t : Char) (cs : List Char), isTerminator t = true → 0 < q.buffer_pos_ →
        q.buffer_pos_ < q.command_buffer_.length →
      updateLoop dispatch q w (t :: cs)
        = match dispatch (q.command_buffer_.set q.buffer_pos_ NUL) w with
          | some (r, w1) =>
            updateLoop dispatch
              { command_buffer_ := q.command_buffer_.set q.buffer_pos_ NUL,
                buffer_pos_ := 0, last_result_ := r } w1 cs
          | none => none) := by
  have hp := p.holds_nil hlen hpos
  refine ⟨?_, ?_, ?_, ?_, ?_, ?_⟩
  · obtain ⟨p1, h1, h2⟩ := updateLoop_record bytes [] p [] hp
    exact ⟨p1, by simpa [dispatched] using h1, h2⟩
  · intro α _ dm w log
    exact updateLoop_observe (CommandParser.parseAndExecute dm) bytes [] p w log hp
  · unfold dispatched; rw [segmentsFrom_empty]
  · unfold unfinished; rw [segmentsFrom_empty]
  · intro W dispatch w t cs ht
    have ht2 : t = Char.ofNat 10 ∨ t = Char.ofNat 13 := (isTerminator_iff t).mpr ht
    simp only [updateLoop, ht2, if_true, hpos, Nat.lt_irrefl, if_false]
  · intro W dispatch q w t cs ht hq hin
    have ht2 : t = Char.ofNat 10 ∨ t = Char.ofNat 13 := (isTerminator_iff t).mpr ht
    simp only [updateLoop, ht2, if_true, hq, hin]

theorem update_dispatches_witness :
    CommandParser.new.command_buffer_.length = BUFFER_SIZE ∧
    CommandParser.new.buffer_pos_ = 0 ∧
    ∃ p1, updateLoop recordCommand CommandParser.new []
        ("STATUS".toList ++ [Char.ofNat 13, Char.ofNat 10] ++ "SERVO,1,load".toList
          ++ [Char.ofNat 10] ++ "STO".toList)
        = some (p1, dispatched []
          ("STATUS".toList ++ [Char.ofNat 13, Char.ofNat 10] ++ "SERVO,1,load".toList
            ++ [Char.ofNat 10] ++ "STO".toList)) ∧
      p1.Holds (unfinished []
        ("STATUS".toList ++ [Char.ofNat 13, Char.ofNat 10] ++ "SERVO,1,load".toList
          ++ [Char.ofNat 10] ++ "STO".toList)) :=
  ⟨List.length_replicate _ _, rfl,
   (update_dispatches CommandParser.new
     ("STATUS".toList ++ [Char.ofNat 13, Char.ofNat 10] ++ "SERVO,1,load".toList
       ++ [Char.ofNat 10] ++ "STO".toList) (List.length_replicate _ _) rfl).1⟩

/-- C15: for every line of more than 255 non-terminator bytes followed by a terminator,
read from an empty buffer, `update` dispatches exactly one command, on the cells that hold
the first 255 bytes of the line and the null character (the later bytes are dropped);
while the line is read the buffer position is the number of bytes read, capped at
`BUFFER_SIZE - 1 = 255`; and the parser goes on with an empty buffer, so that the next
lines are assembled as from the start. -/
theorem update_long_line {W : Type} (dispatch : List Char → W → Option (Bool × W))
    (p : CommandParser) (w : W) (line : List Char) (t : Char) (more : List Char)
    (hlen : p.command_buffer_.length = BUFFER_SIZE) (hpos : p.buffer_pos_ = 0)
    (hline : ∀ c ∈ line, isTerminator c = false) (hlong : 255 < line.length)
    (ht : isTerminator t = true) :
    updateLoop dispatch p w (line ++ t :: more)
      = (match dispatch (line.take 255 ++ [NUL]) w with
        | some (r, w1) =>
          updateLoop dispatch
            { command_buffer_ := line.take 255 ++ [NUL], buffer_pos_ := 0,
              last_result_ := r } w1 more
        | none => none) ∧
    cStringFrom (line.take 255 ++ [NUL]) = some (cText (line.take 255)) ∧
    ((∀ c ∈ line, c ≠ NUL) → cText (line.take 255) = line.take 255) ∧
    (∀ pre, pre <+: line → ∃ q, updateLoop dispatch p w pre = some (q, w) ∧
      q.buffer_pos_ = min pre.length 255 ∧ q.buffer_pos_ ≤ BUFFER_SIZE - 1) ∧
    (∀ r, CommandParser.Holds
      { command_buffer_ := line.take 255 ++ [NUL], buffer_pos_ := 0, last_result_ := r } []) ∧
    (∀ log, ∃ p1, updateLoop recordCommand p log (line ++ t :: more)
        = some (p1, log ++ cText (line.take 255) :: dispatched [] more) ∧
      p1.Holds (unfinished [] more)) := by
  have hp := p.holds_nil hlen hpos
  have hne : line ≠ [] := by
    intro e; rw [e] at hlong; simp at hlong
  obtain ⟨rest, hrl, hholds, hrun⟩ :=
    updateLoop_line dispatch line hline hne t ht more p w hp
  have hrest : rest = [] := by
    have h255 : (line.take 255).length = 255 := by
      rw [List.length_take]; omega
    simp only [List.length_append, List.length_cons, h255, BUFFER_SIZE] at hrl
    exact List.length_eq_zero.mp (by omega)
  subst hrest
  refine ⟨hrun, cStringFrom_append _ [], ?_, ?_, hholds, ?_⟩
  · intro hnul
    unfold cText
    rw [List.takeWhile_eq_self_iff]
    intro c hc
    simpa using hnul c (List.mem_of_mem_take hc)
  · intro pre hpre
    obtain ⟨suf, hsuf⟩ := hpre
    have hpret : ∀ c ∈ pre, isTerminator c = false := by
      intro c hc
      exact hline c (by rw [← hsuf]; exact List.mem_append_left _ hc)
    obtain ⟨q, h1, h2, -⟩ := updateLoop_plain dispatch pre hpret [] p w hp
    refine ⟨q, h1, by simpa using h2.2.1, ?_⟩
    have := h2.2.1
    unfold BUFFER_SIZE
    omega
  · intro log
    obtain ⟨p1, h1, h2⟩ := updateLoop_record (line ++ t :: more) [] p log hp
    obtain ⟨hd, hu⟩ := dispatched_line line hline t ht more []
    refine ⟨p1, ?_, ?_⟩
    · have h1b : updateLoop recordCommand p log (line ++ t :: more)
          = some (p1, log ++ dispatched [] (line ++ t :: more)) := h1
      have : dispatched [] (line ++ t :: more)
          = cText (line.take 255) :: dispatched [] more := by
        rw [hd]; simp [hne]
      rw [h1b, this]
    · have e : ((segmentsFrom [] (line ++ t :: more)).getLast?).getD []
          = unfinished [] (line ++ t :: more) := rfl
      rw [e, hu] at h2
      exact h2

theorem update_long_line_witness :
    CommandParser.new.command_buffer_.length = BUFFER_SIZE ∧
    CommandParser.new.buffer_pos_ = 0 ∧
    (∀ c ∈ List.replicate 300 'a', isTerminator c = false) ∧
    255 < (List.replicate 300 'a').length ∧
    isTerminator (Char.ofNat 10) = true ∧
    (∀ log, ∃ p1, updateLoop recordCommand CommandParser.new log
        (List.replicate 300 'a' ++ Char.ofNat 10 :: "STATUS".toList)
        = some (p1, log ++ cText ((List.replicate 300 'a').take 255)
            :: dispatched [] "STATUS".toList) ∧
      p1.Holds (unfinished [] "STATUS".toList)) :=
  ⟨List.length_replicate _ _, rfl,
   fun c hc => by rw [List.eq_of_mem_replicate hc]; decide,
   by rw [List.length_replicate]; decide,
   by decide,
   (update_long_line recordCommand CommandParser.new [] (List.replicate 300 'a')
     (Char.ofNat 10) "STATUS".toList (List.length_replicate _ _) rfl
     (fun c hc => by rw [List.eq_of_mem_replicate hc]; decide)
     (by rw [List.length_replicate]; decide) (by decide)).2.2.2.2.2⟩

/-! ## The dispatch grammar -/

theorem takeWhile_append_stop {α : Type} (f : α → Bool) (xs ys : List α)
    (hxs : ∀ x ∈ xs, f x = true) (hys : ∀ y r, ys = y :: r → f y = false) :
    (xs ++ ys).takeWhile f = xs := by
  induction xs with
  | nil =>
    cases ys with
    | nil => rfl
    | cons y r => simp [List.takeWhile_cons, hys y r rfl]
  | cons x xs ih =>
    rw [List.cons_append, List.takeWhile_cons, hxs x (List.mem_cons_self _ _)]
    simp only [if_true]
    rw [ih (fun z hz => hxs z (List.mem_cons_of_mem _ hz))]

/-- When only commas are left, `strtok` returns a null pointer. -/
theorem strtok_none (work : List Char) (i : Nat) (h : ∀ c ∈ work.drop i, c = ',') :
    strtok work i = none := by
  have h1 : (work.drop i).takeWhile (fun c => decide (c = ',')) = work.drop i := by
    rw [List.takeWhile_eq_self_iff]
    intro c hc
    simpa using h c hc
  unfold strtok
  simp only [h1, List.length_drop]
  rw [List.drop_of_length_le (by omega)]
  simp

/-- When commas, a token and then a comma or the end of the text are left, `strtok`
returns the token. -/
theorem strtok_some (work : List Char) (i : Nat) (commas tok back : List Char)
    (hdrop : work.drop i = commas ++ tok ++ back) (hc : ∀ c ∈ commas, c = ',')
    (htok : ∀ c ∈ tok, c ≠ ',') (hne : tok ≠ [])
    (hback : ∀ c r, back = c :: r → c = ',') :
    strtok work i = some (i + commas.length, tok.length,
      if i + commas.length + tok.length < work.length then i + commas.length + tok.length + 1
      else i + commas.length + tok.length) := by
  obtain ⟨t0, ts, rfl⟩ := List.exists_cons_of_ne_nil hne
  have h1 : (work.drop i).takeWhile (fun c => decide (c = ',')) = commas := by
    rw [hdrop, List.append_assoc]
    apply takeWhile_append_stop
    · intro c hcm; simpa using hc c hcm
    · intro y r e
      rw [List.cons_append] at e
      have := htok t0 (List.mem_cons_self _ _)
      rw [← (List.cons.inj e).1]
      simpa using this
  have h2 : work.drop (i + commas.length) = (t0 :: ts) ++ back := by
    rw [← List.drop_drop, hdrop, List.append_assoc, List.drop_left]
  have h3 : ((t0 :: ts) ++ back).takeWhile (fun c => decide (c ≠ ',')) = t0 :: ts := by
    apply takeWhile_append_stop
    · intro c hcm; simpa using htok c hcm
    · intro y r e
      have := hback y r e
      simp [this]
  unfold strtok
  simp only [h1, h2, h3]
  simp

theorem cText_eq_self (s : List Char) (h : ∀ c ∈ s, c ≠ NUL) : cText s = s := by
  unfold cText
  rw [List.takeWhile_eq_self_iff]
  intro c hc
  simpa using h c hc

/-- The text that `strncpy` leaves in `work_buf` is the line that the buffer holds. -/
theorem cStringFrom_lineBuffer (line tail : List Char) (hnul : ∀ c ∈ line, c ≠ NUL)
    (hlen : line.length ≤ 255) :
    cStringFrom ((lineBuffer line tail).take BUFFER_SIZE) = some line := by
  unfold lineBuffer BUFFER_SIZE
  rw [List.take_append_eq_append_take, List.take_of_length_le (by omega)]
  obtain ⟨k, hk⟩ : ∃ k, 256 - line.length = k + 1 := ⟨255 - line.length, by omega⟩
  rw [hk, List.take_succ_cons, cStringFrom_append, cText_eq_self line hnul]

theorem line_ne_of_comma (line : List Char) (h : ',' ∈ line) :
    line ≠ "STATUS".toList ∧ line ≠ "STOP_ALL".toList := by
  constructor
  · intro e; rw [e] at h; revert h; decide
  · intro e; rw [e] at h; revert h; decide

/-- A line `<verb>,<id_str>,<rest>` forwards `rest` to the device whose id is
`atoi(id_str)` cut to eight bits, whatever lies in the buffer after the line. -/
theorem parseAndExecute_two_tokens {α : Type} [DecidableEq α] (dm : DeviceManager α)
    (w : World α) (verb id_str rest tail : List Char) (v : Int)
    (hverb : verb ≠ []) (hvc : ∀ c ∈ verb, c ≠ ',')
    (hid : id_str ≠ []) (hic : ∀ c ∈ id_str, c ≠ ',')
    (hnul : ∀ c ∈ verb ++ ',' :: id_str ++ ',' :: rest, c ≠ NUL)
    (hlen : (verb ++ ',' :: id_str ++ ',' :: rest).length ≤ 255)
    (hv : atoi id_str = some v) :
    CommandParser.parseAndExecute dm (lineBuffer (verb ++ ',' :: id_str ++ ',' :: rest) tail) w
      = dm.executeDeviceCommand (v % 256).toNat rest w := by
  have hcomma : ',' ∈ verb ++ ',' :: id_str ++ ',' :: rest := by simp
  obtain ⟨hs1, hs2⟩ := line_ne_of_comma _ hcomma
  have ht1 := strtok_some (verb ++ ',' :: id_str ++ ',' :: rest) 0 [] verb
    (',' :: id_str ++ ',' :: rest) (by simp) (by intro c hc; cases hc) hvc hverb
    (by intro c r e; rw [List.cons_append] at e; exact (List.cons.inj e).1.symm)
  have hlt1 : 0 + ([] : List Char).length + verb.length
      < (verb ++ ',' :: id_str ++ ',' :: rest).length := by
    simp only [List.length_nil, List.length_append, List.length_cons]; omega
  rw [if_pos hlt1] at ht1
  have ht2 := strtok_some (verb ++ ',' :: id_str ++ ',' :: rest) (verb.length + 1) [] id_str
    (',' :: rest)
    (by
      have e : verb ++ ',' :: id_str ++ ',' :: rest
          = (verb ++ [',']) ++ (id_str ++ ',' :: rest) := by simp
      have l : verb.length + 1 = (verb ++ [',']).length := by simp
      rw [e, l, List.drop_left]; simp)
    (by intro c hc; cases hc) hic hid
    (by intro c r e; exact (List.cons.inj e).1.symm)
  have hidtok : ((verb ++ ',' :: id_str ++ ',' :: rest).drop (verb.length + 1)).take
      id_str.length = id_str := by
    have e : verb ++ ',' :: id_str ++ ',' :: rest
        = (verb ++ [',']) ++ (id_str ++ ',' :: rest) := by simp
    have l : verb.length + 1 = (verb ++ [',']).length := by simp
    rw [e, l, List.drop_left, List.take_left]
  have hrem : (lineBuffer (verb ++ ',' :: id_str ++ ',' :: rest) tail).drop
      (verb.length + 1 + id_str.length + 1) = rest ++ NUL :: tail := by
    have e : lineBuffer (verb ++ ',' :: id_str ++ ',' :: rest) tail
        = (verb ++ [','] ++ id_str ++ [',']) ++ (rest ++ NUL :: tail) := by
      simp [lineBuffer]
    have l : verb.length + 1 + id_str.length + 1
        = (verb ++ [','] ++ id_str ++ [',']).length := by
      simp only [List.length_append, List.length_singleton]
    rw [e, l, List.drop_left]
  have hrest : ∀ c ∈ rest, c ≠ NUL := fun c hc => hnul c (by simp [hc])
  unfold CommandParser.parseAndExecute
  rw [cStringFrom_lineBuffer _ tail hnul hlen]
  simp only []
  rw [if_neg hs1, if_neg hs2, ht1]
  simp only [List.length_nil, Nat.add_zero, Nat.zero_add]
  rw [ht2]
  simp only [List.length_nil, Nat.add_zero]
  rw [hidtok, hv]
  simp only []
  rw [hrem, cStringFrom_append, cText_eq_self rest hrest]

/-- A line `<verb>,<id_str>` with one comma forwards the string that lies in the buffer
after the null character that ends the line: what an earlier line left there. -/
theorem parseAndExecute_one_comma {α : Type} [DecidableEq α] (dm : DeviceManager α)
    (w : World α) (verb id_str tail stale : List Char) (v : Int)
    (hverb : verb ≠ []) (hvc : ∀ c ∈ verb, c ≠ ',')
    (hid : id_str ≠ []) (hic : ∀ c ∈ id_str, c ≠ ',')
    (hnul : ∀ c ∈ verb ++ ',' :: id_str, c ≠ NUL)
    (hlen : (verb ++ ',' :: id_str).length ≤ 255)
    (hv : atoi id_str = some v) (hstale : cStringFrom tail = some stale) :
    CommandParser.parseAndExecute dm (lineBuffer (verb ++ ',' :: id_str) tail) w
      = dm.executeDeviceCommand (v % 256).toNat stale w := by
  have hcomma : ',' ∈ verb ++ ',' :: id_str := by simp
  obtain ⟨hs1, hs2⟩ := line_ne_of_comma _ hcomma
  have ht1 := strtok_some (verb ++ ',' :: id_str) 0 [] verb (',' :: id_str) (by simp)
    (by intro c hc; cases hc) hvc hverb
    (by intro c r e; exact (List.cons.inj e).1.symm)
  have hlt1 : 0 + ([] : List Char).length + verb.length < (verb ++ ',' :: id_str).length := by
    simp only [List.length_nil, List.length_append, List.length_cons]; omega
  rw [if_pos hlt1] at ht1
  have ht2 := strtok_some (verb ++ ',' :: id_str) (verb.length + 1) [] id_str []
    (by
      have e : verb ++ ',' :: id_str = (verb ++ [',']) ++ id_str := by simp
      have l : verb.length + 1 = (verb ++ [',']).length := by simp
      rw [e, l, List.drop_left]; simp)
    (by intro c hc; cases hc) hic hid (by intro c r e; cases e)
  have hidtok : ((verb ++ ',' :: id_str).drop (verb.length + 1)).take id_str.length
      = id_str := by
    have e : verb ++ ',' :: id_str = (verb ++ [',']) ++ id_str := by simp
    have l : verb.length + 1 = (verb ++ [',']).length := by simp
    rw [e, l, List.drop_left, List.take_length]
  have hrem : (lineBuffer (verb ++ ',' :: id_str) tail).drop
      (verb.length + 1 + id_str.length + 1) = tail := by
    have e : lineBuffer (verb ++ ',' :: id_str) tail
        = (verb ++ [','] ++ id_str ++ [NUL]) ++ tail := by
      simp [lineBuffer]
    have l : verb.length + 1 + id_str.length + 1
        = (verb ++ [','] ++ id_str ++ [NUL]).length := by
      simp only [List.length_append, List.length_singleton]
    rw [e, l, List.drop_left]
  unfold CommandParser.parseAndExecute
  rw [cStringFrom_lineBuffer _ tail hnul hlen]
  simp only []
  rw [if_neg hs1, if_neg hs2, ht1]
  simp only [List.length_nil, Nat.add_zero, Nat.zero_add]
  rw [ht2]
  simp only [List.length_nil, Nat.add_zero]
  rw [hidtok, hv]
  simp only []
  rw [hrem, hstale]

/-- On a numeral followed by something that is not a digit, `atoi` returns the value of the
numeral. -/
theorem atoi_numeral (ds junk : List Char) (hne : ds ≠ []) (hds : ∀ c ∈ ds, isDigit c = true)
    (hjunk : ∀ c r, junk = c :: r → isDigit c = false)
    (hval : decimalValue ds ≤ 2147483647) :
    atoi (ds ++ junk) = some (decimalValue ds : Int) := by
  obtain ⟨d, ds1, rfl⟩ := List.exists_cons_of_ne_nil hne
  have hd : isDigit d = true := hds d (List.mem_cons_self _ _)
  have h1 := scanDigits_append (d :: ds1) hds junk hjunk 0 0
  unfold atoi
  rw [List.cons_append, skipSpace_digit d _ hd, scanSign_digit d _ hd]
  rw [List.cons_append] at h1
  simp only [h1, Nat.zero_mul, Nat.zero_add, Bool.false_eq_true, if_false]
  rw [if_pos ⟨by omega, by omega⟩]

set_option maxRecDepth 100000 in
/-- C16, against the claim as stated: the line `SERVO,,1,load` has more than two commas and
the text after its second comma is `1,load`, yet the dispatch receives id 1 and args
`load` (the servo with id 1 is loaded): `strtok` skips the empty field. Dispatching
`1,load` to device 0, as the claim has it, would load no servo. -/
theorem parseAndExecute_skips_empty_field :
    (CommandParser.parseAndExecute
        (DeviceManager.mk (some 0 :: some 1 :: List.replicate 8 none) 2 : DeviceManager Nat)
        (lineBuffer "SERVO,,1,load".toList [])
        (World.mk (fun p => HiWonderServo.new p) [] [])).map (fun r => (r.1, r.2.serial))
      = some (true, [[0x55, 0x55, 1, 4, 0x1F, 1, 218]]) ∧
    ((DeviceManager.mk (some 0 :: some 1 :: List.replicate 8 none) 2 :
        DeviceManager Nat).executeDeviceCommand 1 "load".toList
        (World.mk (fun p => HiWonderServo.new p) [] [])).map (fun r => (r.1, r.2.serial))
      = some (true, [[0x55, 0x55, 1, 4, 0x1F, 1, 218]]) ∧
    ((DeviceManager.mk (some 0 :: some 1 :: List.replicate 8 none) 2 :
        DeviceManager Nat).executeDeviceCommand 0 "1,load".toList
        (World.mk (fun p => HiWonderServo.new p) [] [])).map (fun r => (r.1, r.2.serial))
      = some (false, []) := by
  refine ⟨by decide, by decide, by decide⟩

/-- C16, as the code has it: for every completed line `<verb>,<id_str>,<rest>` whose verb
and id_str are not empty and hold no comma, the args passed to the dispatch of the
registry is exactly `rest`, the text of the line after its second comma, verbatim and with
any further commas, whatever the buffer holds after the line; the id passed is
`atoi(id_str)` cut to eight bits, which is the value of `id_str` when `id_str` is a decimal
numeral below 256. -/
theorem parseAndExecute_forwards_rest {α : Type} [DecidableEq α] (dm : DeviceManager α)
    (w : World α) (verb id_str rest tail : List Char) (v : Int)
    (hverb : verb ≠ []) (hvc : ∀ c ∈ verb, c ≠ ',')
    (hid : id_str ≠ []) (hic : ∀ c ∈ id_str, c ≠ ',')
    (hnul : ∀ c ∈ verb ++ ',' :: id_str ++ ',' :: rest, c ≠ NUL)
    (hlen : (verb ++ ',' :: id_str ++ ',' :: rest).length ≤ 255)
    (hv : atoi id_str = some v) :
    CommandParser.parseAndExecute dm (lineBuffer (verb ++ ',' :: id_str ++ ',' :: rest) tail) w
      = dm.executeDeviceCommand (v % 256).toNat rest w ∧
    ((∀ c ∈ id_str, isDigit c = true) → decimalValue id_str < 256 →
      (v % 256).toNat = decimalValue id_str) := by
  refine ⟨parseAndExecute_two_tokens dm w verb id_str rest tail v hverb hvc hid hic hnul hlen hv,
    ?_⟩
  intro hd hval
  have h := atoi_numeral id_str [] hid hd (by intro c r e; cases e) (by omega)
  rw [List.append_nil, hv] at h
  have hv2 : v = (decimalValue id_str : Int) := Option.some.inj h
  rw [hv2]
  omega

theorem parseAndExecute_forwards_rest_witness :
    "SERVO".toList ≠ [] ∧ (∀ c ∈ "SERVO".toList, c ≠ ',') ∧
    "1".toList ≠ [] ∧ (∀ c ∈ "1".toList, c ≠ ',') ∧
    (∀ c ∈ "SERVO".toList ++ ',' :: "1".toList ++ ',' :: "angle,45,time,500".toList,
      c ≠ NUL) ∧
    ("SERVO".toList ++ ',' :: "1".toList ++ ',' :: "angle,45,time,500".toList).length ≤ 255 ∧
    atoi "1".toList = some 1 ∧
    CommandParser.parseAndExecute
        (DeviceManager.mk (some 1 :: List.replicate 9 none) 1 : DeviceManager Nat)
        (lineBuffer ("SERVO".toList ++ ',' :: "1".toList ++ ','
          :: "angle,45,time,500".toList) "unload".toList)
        (World.mk (fun p => HiWonderServo.new p) [] [])
      = (DeviceManager.mk (some 1 :: List.replicate 9 none) 1 :
          DeviceManager Nat).executeDeviceCommand ((1 : Int) % 256).toNat
          "angle,45,time,500".toList (World.mk (fun p => HiWonderServo.new p) [] []) :=
  ⟨by decide, by decide, by decide, by decide, by decide, by decide, by decide,
   (parseAndExecute_forwards_rest _ _ "SERVO".toList "1".toList "angle,45,time,500".toList
     "unload".toList 1 (by decide) (by decide) (by decide) (by decide) (by decide)
     (by decide) (by decide)).1⟩

/-- C17: for every completed line other than `STATUS` and `STOP_ALL` in which the verb
token or the id token is absent, that is a line made of commas, at most one token without
a comma, and commas (for example a line with no comma), `parseAndExecute` returns false
and performs no action: the servos, the servo bus and the USB port are what they
were. -/
theorem parseAndExecute_rejects {α : Type} [DecidableEq α] (dm : DeviceManager α)
    (w : World α) (cmd_str line pre tok post : List Char)
    (hline : cStringFrom (cmd_str.take BUFFER_SIZE) = some line)
    (hs1 : line ≠ "STATUS".toList) (hs2 : line ≠ "STOP_ALL".toList)
    (hshape : line = pre ++ tok ++ post)
    (hpre : ∀ c ∈ pre, c = ',') (htok : ∀ c ∈ tok, c ≠ ',') (hpost : ∀ c ∈ post, c = ',') :
    CommandParser.parseAndExecute dm cmd_str w = some (false, w) := by
  unfold CommandParser.parseAndExecute
  rw [hline]
  simp only []
  rw [if_neg hs1, if_neg hs2]
  by_cases hne : tok = []
  · have hall : ∀ c ∈ line.drop 0, c = ',' := by
      rw [List.drop_zero, hshape, hne, List.append_nil]
      intro c hc
      rcases List.mem_append.mp hc with h | h
      · exact hpre c h
      · exact hpost c h
    rw [strtok_none line 0 hall]
  · have ht1 := strtok_some line 0 pre tok post (by rw [List.drop_zero, hshape]) hpre htok hne
      (by intro c r e; exact hpost c (by rw [e]; exact List.mem_cons_self _ _))
    rw [ht1]
    simp only []
    have hnext : ∀ n, 0 + pre.length + tok.length ≤ n → ∀ c ∈ line.drop n, c = ',' := by
      intro n hn c hc
      have hsub : c ∈ line.drop (pre.length + tok.length) := by
        have e : n = (pre.length + tok.length) + (n - (pre.length + tok.length)) := by omega
        rw [e, ← List.drop_drop] at hc
        exact List.mem_of_mem_drop hc
      have e2 : line.drop (pre.length + tok.length) = post := by
        have l : pre.length + tok.length = (pre ++ tok).length := by simp
        rw [hshape, l, List.drop_left]
      rw [e2] at hsub
      exact hpost c hsub
    rw [strtok_none line _ (hnext _ (by split_ifs <;> omega))]

theorem parseAndExecute_rejects_witness :
    cStringFrom ((lineBuffer "FOO".toList "1,load".toList).take BUFFER_SIZE)
      = some "FOO".toList ∧
    "FOO".toList ≠ "STATUS".toList ∧ "FOO".toList ≠ "STOP_ALL".toList ∧
    "FOO".toList = [] ++ "FOO".toList ++ [] ∧
    (∀ c ∈ ([] : List Char), c = ',') ∧ (∀ c ∈ "FOO".toList, c ≠ ',') ∧
    (∀ c ∈ ([] : List Char), c = ',') ∧
    CommandParser.parseAndExecute
        (DeviceManager.mk (some 1 :: List.replicate 9 none) 1 : DeviceManager Nat)
        (lineBuffer "FOO".toList "1,load".toList)
        (World.mk (fun p => HiWonderServo.new p) [] [])
      = some (false, World.mk (fun p => HiWonderServo.new p) [] []) :=
  ⟨by decide, by decide, by decide, by decide, by decide, by decide, by decide,
   parseAndExecute_rejects _ _ (lineBuffer "FOO".toList "1,load".toList) "FOO".toList []
     "FOO".toList [] (by decide) (by decide) (by decide) (by decide) (by decide) (by decide)
     (by decide)⟩

set_option maxRecDepth 100000 in
/-- C20, at the failing input: the line `SERVO,1`, with one comma, read by the parser as
initialised, forwards the empty args string: the dispatch returns false and no frame is
written. The same line read after the line `SERVO,1,unload` returns true and writes a
second unload frame: the args forwarded are the bytes `unload` that the earlier line left
in the command buffer after the null character that ends the new line. -/
theorem update_forwards_stale_args :
    (CommandParser.update
        (DeviceManager.mk (some 1 :: List.replicate 9 none) 1 : DeviceManager Nat)
        CommandParser.new (World.mk (fun p => HiWonderServo.new p) [] [])
        ("SERVO,1".toList ++ [Char.ofNat 10])).map
        (fun r => (r.1.last_result_, r.2.serial))
      = some (false, []) ∧
    (CommandParser.update
        (DeviceManager.mk (some 1 :: List.replicate 9 none) 1 : DeviceManager Nat)
        CommandParser.new (World.mk (fun p => HiWonderServo.new p) [] [])
        ("SERVO,1,unload".toList ++ [Char.ofNat 10])).map
        (fun r => (r.1.last_result_, r.2.serial, r.1.command_buffer_.take 16))
      = some (true, [[0x55, 0x55, 1, 0x04, 0x14, 0x00]],
          "SERVO,1,unload".toList ++ [NUL, NUL]) ∧
    (CommandParser.update
        (DeviceManager.mk (some 1 :: List.replicate 9 none) 1 : DeviceManager Nat)
        CommandParser.new (World.mk (fun p => HiWonderServo.new p) [] [])
        ("SERVO,1,unload".toList ++ [Char.ofNat 10] ++ "SERVO,1".toList
          ++ [Char.ofNat 10])).map
        (fun r => (r.1.last_result_, r.2.serial, r.1.command_buffer_.take 16))
      = some (true, [[0x55, 0x55, 1, 0x04, 0x14, 0x00], [0x55, 0x55, 1, 0x04, 0x14, 0x00]],
          "SERVO,1".toList ++ [NUL] ++ "unload".toList ++ [NUL, NUL]) := by
  refine ⟨by decide, by decide, by decide⟩
end Submarine
